import Mathlib

/-!
Shallow embedding of the sudoku constraint-propagation engine in solver.py
(classes SudokuTile and SudokuSolver), together with proofs about the
claims of the specification.  Python in-place mutation is modelled by
explicit state passing; the RuntimeError raised by
SudokuSolver.remove_possible and the IndexError that the box scan can hit
are modelled by an Except error monad.
-/

set_option maxHeartbeats 1000000

/-- Status constant EMPTY from solver.py. -/
def EMPTY : Nat := 0

/-- Status constant OK from solver.py. -/
def OK : Int := 0

/-- Status constant SAME_VALUE from solver.py. -/
def SAME_VALUE : Int := -1

/-- Status constant NONE_REMOVED from solver.py. -/
def NONE_REMOVED : Int := -2

/-- One grid cell: the field value is 0 while unresolved, hpv is the
highest possible value (N squared for an N-parameter grid), and possible
is the candidate set.  The python set is modelled as a duplicate-free
list (python builds it from range(1, hpv+1) and only ever erases
elements or collapses it to a singleton, so it stays duplicate-free);
list membership and removal match the python set operations, and
list(possible) is the list itself. -/
structure SudokuTile where
  value : Nat
  hpv : Nat
  possible : List Nat
deriving DecidableEq

namespace SudokuTile

/-- SudokuTile.__init__: value EMPTY, candidates set(range(1, hpv+1)). -/
def init (hpv : Nat) : SudokuTile :=
  { value := EMPTY, hpv := hpv, possible := List.range' 1 hpv }

/-- SudokuTile.set: assigns possible = set([value]) first, then updates
value and reports whether the value changed. -/
def set (t : SudokuTile) (v : Nat) : SudokuTile × Bool :=
  if v = t.value then ({ t with possible := [v] }, false)
  else ({ t with possible := [v], value := v }, true)

/-- SudokuTile.reset_possible. -/
def reset_possible (t : SudokuTile) : SudokuTile :=
  if t.value = EMPTY then { t with possible := List.range' 1 t.hpv }
  else { t with possible := [t.value] }

/-- SudokuTile.resolve: when the tile is unresolved and exactly one
candidate remains, self-resolve to it; returns the (new) value. -/
def resolve (t : SudokuTile) : SudokuTile × Nat :=
  if t.value ≠ 0 then (t, t.value)
  else
    match t.possible with
    | [v] =>
      let t1 := (t.set v).1
      (t1, t1.value)
    | _ => (t, t.value)

/-- SudokuTile.remove_possible: SAME_VALUE when targeting the resolved
value, OK after erasing a present candidate (followed by the resolve
call), NONE_REMOVED when the candidate was already absent. -/
def remove_possible (t : SudokuTile) (v : Nat) : SudokuTile × Int :=
  if v = t.value then (t, SAME_VALUE)
  else if v ∈ t.possible then
    ((({ t with possible := t.possible.erase v }).resolve).1, OK)
  else (t, NONE_REMOVED)

end SudokuTile

/-- The two failure modes of the engine: contradiction is the
RuntimeError raised by SudokuSolver.remove_possible when an elimination
targets the resolved value of a cell; indexError is the IndexError hit
by the unguarded rows[0] and cols[0] lookups in the box scan of
refresh_possible. -/
inductive SolveErr where
  | contradiction
  | indexError
deriving DecidableEq

/-- The solver state: the box-dimension parameter N and the board, a
list of N*N rows of N*N tiles. -/
structure SudokuSolver where
  N : Nat
  board : List (List SudokuTile)
deriving DecidableEq

/-- Placeholder tile returned by out-of-range lookups; grid-level claims
always carry in-range hypotheses. -/
def defaultTile : SudokuTile := { value := 0, hpv := 0, possible := [] }

namespace SudokuSolver

/-- SudokuSolver.get_tile. -/
def get_tile (s : SudokuSolver) (row col : Nat) : SudokuTile :=
  (s.board.getD row []).getD col defaultTile

/-- Writing back a mutated tile (python mutates the object in place). -/
def set_tile (s : SudokuSolver) (row col : Nat) (t : SudokuTile) : SudokuSolver :=
  { s with board := s.board.set row ((s.board.getD row []).set col t) }

/-- SudokuSolver.remove_possible: runs the tile-level elimination, writes
the tile back, raises on SAME_VALUE and otherwise reports whether a
candidate was removed (stat == OK). -/
def remove_possible (s : SudokuSolver) (row col val : Nat) :
    Except SolveErr (SudokuSolver × Bool) :=
  let p := (s.get_tile row col).remove_possible val
  if p.2 = SAME_VALUE then .error .contradiction
  else .ok (s.set_tile row col p.1, p.2 = OK)

/-- SudokuSolver.box_indices: the N x N box containing (row, col), in
row-major order. -/
def box_indices (s : SudokuSolver) (row col : Nat) : List (Nat × Nat) :=
  let r0 := row / s.N * s.N
  let c0 := col / s.N * s.N
  (List.range s.N).flatMap fun i => (List.range s.N).map fun j => (r0 + i, c0 + j)

/-- The exact sequence of cells visited by the elimination loops of
SudokuSolver.commit: for each x in range(N*N) first (row, x) if x is not
col, then (x, col) if x is not row; afterwards the box cells other than
(row, col) itself. -/
def commitVisits (s : SudokuSolver) (row col : Nat) : List (Nat × Nat) :=
  ((List.range (s.N * s.N)).flatMap fun x =>
    (if x ≠ col then [(row, x)] else []) ++ (if x ≠ row then [(x, col)] else []))
  ++ (s.box_indices row col).filter (fun p => p ≠ (row, col))

end SudokuSolver

/-- Sequentially applies SudokuSolver.remove_possible to a list of cells,
accumulating the count of eliminations, and propagating the raised
error.  This is the elimination loop of SudokuSolver.commit. -/
def removeMany (val : Nat) :
    SudokuSolver → List (Nat × Nat) → Nat → Except SolveErr (SudokuSolver × Nat)
  | s, [], n => .ok (s, n)
  | s, p :: ps, n =>
    match s.remove_possible p.1 p.2 val with
    | .error e => .error e
    | .ok (s1, b) => removeMany val s1 ps (n + if b then 1 else 0)

namespace SudokuSolver

/-- SudokuSolver.commit: set the value at the cell (resolving after a
change, as the python code does) and eliminate it from every cell along
the row, the column and the box. -/
def commit (s : SudokuSolver) (row col val : Nat) :
    Except SolveErr (SudokuSolver × Nat) :=
  let t := s.get_tile row col
  let p := t.set val
  let t2 := if p.2 then (p.1.resolve).1 else p.1
  let s1 := s.set_tile row col t2
  removeMany val s1 (s1.commitVisits row col) 0

end SudokuSolver

/-- Error-propagating left fold used to model the python for-loops whose
bodies may raise. -/
def foldME {σ α : Type} (body : σ → α → Except SolveErr σ) :
    σ → List α → Except SolveErr σ
  | st, [] => .ok st
  | st, a :: as =>
    match body st a with
    | .error e => .error e
    | .ok st1 => foldME body st1 as

/-- The row-major list of all cell indices of the grid, as generated in
SudokuSolver.load. -/
def allIndices (N : Nat) : List (Nat × Nat) :=
  (List.range (N * N)).flatMap fun r => (List.range (N * N)).map fun c => (r, c)

/-- Body of the first pass of refresh_possible: resolve each cell and
re-commit its value when it is resolved. -/
def pass1Body (st : SudokuSolver × Nat) (p : Nat × Nat) :
    Except SolveErr (SudokuSolver × Nat) :=
  let q := (st.1.get_tile p.1 p.2).resolve
  let s1 := st.1.set_tile p.1 p.2 q.1
  if q.2 ≠ EMPTY then
    match s1.commit p.1 p.2 q.2 with
    | .error e => .error e
    | .ok (s2, m) => .ok (s2, st.2 + m)
  else .ok (s1, st.2)

/-- The box scan of refresh_possible builds the python sets rows and
cols and the occurrence count for one value over the cells of one box;
the sets are modelled as insertion-ordered duplicate-free lists (the
python list(set) order is only ever inspected when the list is a
singleton or empty, where every order agrees). -/
def collectOcc (s : SudokuSolver) (bids : List (Nat × Nat)) (val : Nat) :
    List Nat × List Nat × Nat :=
  bids.foldl
    (fun acc p =>
      if val ∈ (s.get_tile p.1 p.2).possible then
        ((if p.1 ∈ acc.1 then acc.1 else acc.1 ++ [p.1]),
         (if p.2 ∈ acc.2.1 then acc.2.1 else acc.2.1 ++ [p.2]),
         acc.2.2 + 1)
      else acc)
    ([], [], 0)

/-- One step of the pointing-reduction loops in the box scan: skip cells
of the box, eliminate the value elsewhere, accumulating the python
variable removed. -/
def reduceStep (bids : List (Nat × Nat)) (val row col : Nat)
    (s : SudokuSolver) (removed : Nat) : Except SolveErr (SudokuSolver × Nat) :=
  if (row, col) ∈ bids then .ok (s, removed)
  else
    match s.remove_possible row col val with
    | .error e => .error e
    | .ok (s1, b) => .ok (s1, removed + if b then 1 else 0)

/-- Body of the row-reduction loop (fixed row, the loop ranges over the
columns); after the conditional elimination the python code adds the
running removed counter to n whenever it is nonzero. -/
def reduceRowBody (bids : List (Nat × Nat)) (val row : Nat)
    (st : SudokuSolver × Nat × Nat) (col : Nat) :
    Except SolveErr (SudokuSolver × Nat × Nat) :=
  match reduceStep bids val row col st.1 st.2.1 with
  | .error e => .error e
  | .ok (s1, removed1) =>
    .ok (s1, removed1, if removed1 ≠ 0 then st.2.2 + removed1 else st.2.2)

/-- Body of the column-reduction loop (fixed column, ranging over rows). -/
def reduceColBody (bids : List (Nat × Nat)) (val col : Nat)
    (st : SudokuSolver × Nat × Nat) (row : Nat) :
    Except SolveErr (SudokuSolver × Nat × Nat) :=
  match reduceStep bids val row col st.1 st.2.1 with
  | .error e => .error e
  | .ok (s1, removed1) =>
    .ok (s1, removed1, if removed1 ≠ 0 then st.2.2 + removed1 else st.2.2)

/-- The per-value body of the box scan: compute the occurrence data,
fetch rows[0] and cols[0] unconditionally (an empty occurrence list is
the IndexError), then run the box-forced-single or pointing-reduction
branch. -/
def boxValBody (bids : List (Nat × Nat)) (st : SudokuSolver × Nat) (val : Nat) :
    Except SolveErr (SudokuSolver × Nat) :=
  let s := st.1
  let occ := collectOcc s bids val
  match occ.1, occ.2.1 with
  | r :: rows1, c :: cols1 =>
    if occ.2.2 = 1 then
      let q := (s.get_tile r c).resolve
      let s1 := s.set_tile r c q.1
      if q.2 = EMPTY then
        match s1.commit r c val with
        | .error e => .error e
        | .ok (s2, m) => .ok (s2, st.2 + m)
      else .ok (s1, st.2)
    else if (r :: rows1).length = 1 then
      match foldME (reduceRowBody bids val r) (s, 0, st.2) (List.range (s.N * s.N)) with
      | .error e => .error e
      | .ok (s1, _, n1) => .ok (s1, n1)
    else if (c :: cols1).length = 1 then
      match foldME (reduceColBody bids val c) (s, 0, st.2) (List.range (s.N * s.N)) with
      | .error e => .error e
      | .ok (s1, _, n1) => .ok (s1, n1)
    else .ok (s, st.2)
  | _, _ => .error .indexError

/-- The per-box body of the box scan: box (br, bc) covers the cells of
box_indices(br*N, bc*N) and is scanned for every value in range(1, N*N+1). -/
def boxBody (st : SudokuSolver × Nat) (b : Nat × Nat) :
    Except SolveErr (SudokuSolver × Nat) :=
  let bids := st.1.box_indices (b.1 * st.1.N) (b.2 * st.1.N)
  foldME (boxValBody bids) st (List.range' 1 (st.1.N * st.1.N))

/-- The row-major list of box coordinates (br, bc) scanned by the box
pass. -/
def boxList (N : Nat) : List (Nat × Nat) :=
  (List.range N).flatMap fun br => (List.range N).map fun bc => (br, bc)

/-- The lonesome scan of refresh_possible collects, for line index a,
the rows list (cells (b, a) whose candidates hold val) and the cols list
(cells (a, b) whose candidates hold val). -/
def lonesome (s : SudokuSolver) (a val : Nat) : List Nat × List Nat :=
  (List.range (s.N * s.N)).foldl
    (fun acc b =>
      ((if val ∈ (s.get_tile b a).possible then acc.1 ++ [b] else acc.1),
       (if val ∈ (s.get_tile a b).possible then acc.2 ++ [b] else acc.2)))
    ([], [])

/-- One execution of the lonesome-scan body for line a: the cols branch
places val at (a, cols[0]) when cols is a singleton and the cell is
unresolved, then the rows branch does the same at (rows[0], a) using the
lists computed before the cols branch ran. -/
def lonesomeBody (val a : Nat) (st : SudokuSolver × Nat) (_d : Nat) :
    Except SolveErr (SudokuSolver × Nat) :=
  let rc := lonesome st.1 a val
  let afterCols : Except SolveErr (SudokuSolver × Nat) :=
    if rc.2.length = 1 then
      let col := rc.2.headD 0
      let q := (st.1.get_tile a col).resolve
      let s1 := st.1.set_tile a col q.1
      if q.2 = EMPTY then
        match s1.commit a col val with
        | .error e => .error e
        | .ok (s2, m) => .ok (s2, st.2 + m)
      else .ok (s1, st.2)
    else .ok st
  match afterCols with
  | .error e => .error e
  | .ok st1 =>
    if rc.1.length = 1 then
      let row := rc.1.headD 0
      let q := (st1.1.get_tile row a).resolve
      let s2 := st1.1.set_tile row a q.1
      if q.2 = EMPTY then
        match s2.commit row a val with
        | .error e => .error e
        | .ok (s3, m) => .ok (s3, st1.2 + m)
      else .ok (s2, st1.2)
    else .ok st1

namespace SudokuSolver

/-- SudokuSolver.refresh_possible: one full sweep.  The third pass is
the code as written: its middle loop rebinds b at once and its body
tests the variable val, which still holds the last value of the box-scan
loop over range(1, N*N+1), namely N*N (the loader always produces N of
at least 1, so that loop is never empty). -/
def refresh_possible (s : SudokuSolver) : Except SolveErr (SudokuSolver × Nat) :=
  match foldME pass1Body (s, 0) (allIndices s.N) with
  | .error e => .error e
  | .ok st1 =>
    match foldME boxBody st1 (boxList s.N) with
    | .error e => .error e
    | .ok st2 =>
      let val := s.N * s.N
      foldME
        (fun st a => foldME (lonesomeBody val a) st (List.range' 1 (s.N * s.N)))
        st2 (List.range (s.N * s.N))

/-- SudokuSolver.solve_count: resolve every cell and count the resolved
ones. -/
def solve_count (s : SudokuSolver) : SudokuSolver × Nat :=
  (allIndices s.N).foldl
    (fun st p =>
      let q := (st.1.get_tile p.1 p.2).resolve
      (st.1.set_tile p.1 p.2 q.1, if q.2 ≠ 0 then st.2 + 1 else st.2))
    (s, 0)

/-- SudokuSolver.solve_step: one sweep followed by a recount. -/
def solve_step (s : SudokuSolver) : Except SolveErr (SudokuSolver × Nat × Nat) :=
  match s.refresh_possible with
  | .error e => .error e
  | .ok (s1, removed) =>
    let q := s1.solve_count
    .ok (q.1, removed, q.2)

end SudokuSolver

/-- The inner loop of SudokuSolver.validate for line index a: scan cell
(a, b) against the seen-set ab and cell (b, a) against ba, returning
False at the first repeated resolved value. -/
def lineScan (a : Nat) : SudokuSolver → List Nat → List Nat → List Nat →
    SudokuSolver × Bool
  | s, [], _, _ => (s, true)
  | s, b :: bs, ab, ba =>
    let q1 := (s.get_tile a b).resolve
    let s1 := s.set_tile a b q1.1
    if q1.2 ≠ EMPTY ∧ q1.2 ∈ ab then (s1, false)
    else
      let q2 := (s1.get_tile b a).resolve
      let s2 := s1.set_tile b a q2.1
      if q2.2 ≠ EMPTY ∧ q2.2 ∈ ba then (s2, false)
      else lineScan a s2 bs (ab.insert q1.2) (ba.insert q2.2)

/-- The outer loop of SudokuSolver.validate. -/
def validateAux : SudokuSolver → List Nat → SudokuSolver × Bool
  | s, [] => (s, true)
  | s, a :: as =>
    match lineScan a s (List.range (s.N * s.N)) [] [] with
    | (s1, true) => validateAux s1 as
    | (s1, false) => (s1, false)

namespace SudokuSolver

/-- SudokuSolver.validate: row and column duplicate detection (boxes are
not checked). -/
def validate (s : SudokuSolver) : SudokuSolver × Bool :=
  validateAux s (List.range (s.N * s.N))

end SudokuSolver

/-- The fixed-point loop of SudokuSolver.solve, written with explicit
fuel: none means the fuel ran out before the exit condition was reached,
some carries the loop outcome (the propagated solver error or the final
state). -/
def solveLoop : Nat → SudokuSolver → Nat → Nat → Nat →
    Option (Except SolveErr SudokuSolver)
  | 0, _, _, _, _ => none
  | fuel + 1, s, prev, solved, removed =>
    if prev ≠ solved ∨ 0 < removed then
      match s.solve_step with
      | .error e => some (.error e)
      | .ok (s1, removed1, solved1) => solveLoop fuel s1 solved solved1 removed1
    else some (.ok s)

namespace SudokuSolver

/-- SudokuSolver.solve: initialise prev = 0, solved = solve_count(),
removed = 0, loop to the fixed point, then validate. -/
def solve (fuel : Nat) (s : SudokuSolver) :
    Option (Except SolveErr (SudokuSolver × Bool)) :=
  let q := s.solve_count
  match solveLoop fuel q.1 0 q.2 0 with
  | none => none
  | some (.error e) => some (.error e)
  | some (.ok s1) => some (.ok s1.validate)

end SudokuSolver

/-- The board that SudokuSolver.load builds from an all-blank puzzle
text of parameter N: every tile fresh with hpv = N*N and no commit
performed. -/
def blankGrid (N : Nat) : SudokuSolver :=
  { N := N
    board := List.replicate (N * N) (List.replicate (N * N) (SudokuTile.init (N * N))) }

/-- The tile-level operations through which the engine mutates a tile:
place is SudokuTile.set, eliminate is SudokuTile.remove_possible,
doResolve is SudokuTile.resolve and doReset is SudokuTile.reset_possible. -/
inductive TileOp where
  | place (v : Nat)
  | eliminate (v : Nat)
  | doResolve
  | doReset
deriving DecidableEq

/-- Applying one engine operation to a tile. -/
def TileOp.apply (t : SudokuTile) : TileOp → SudokuTile
  | .place v => (t.set v).1
  | .eliminate v => (t.remove_possible v).1
  | .doResolve => (t.resolve).1
  | .doReset => t.reset_possible

/-- The values the engine ever places are drawn from [1, hpv]. -/
def TileOp.Legal (hpv : Nat) : TileOp → Prop
  | .place v => 1 ≤ v ∧ v ≤ hpv
  | _ => True

instance (hpv : Nat) (op : TileOp) : Decidable (op.Legal hpv) := by
  cases op <;> simp [TileOp.Legal] <;> infer_instance


namespace SudokuTile

/-- The tile invariant maintained by the engine: candidates lie in
[1, hpv], are duplicate-free, a resolved tile has exactly its value as
candidate list, and an unresolved tile keeps at least two candidates. -/
def Inv (t : SudokuTile) : Prop :=
  (∀ x ∈ t.possible, 1 ≤ x ∧ x ≤ t.hpv) ∧ 2 ≤ t.hpv ∧ t.possible.Nodup ∧
  (t.value ≠ 0 ↔ t.possible = [t.value]) ∧
  (t.value = 0 → 2 ≤ t.possible.length)

instance (t : SudokuTile) : Decidable t.Inv := by
  unfold Inv
  infer_instance

end SudokuTile



/-- Well-formed board shape: the board is an N*N by N*N table. -/
def SudokuSolver.WF (s : SudokuSolver) : Prop :=
  s.board.length = s.N * s.N ∧ ∀ row ∈ s.board, row.length = s.N * s.N

instance (s : SudokuSolver) : Decidable s.WF := by
  unfold SudokuSolver.WF
  infer_instance

/-- The grid-level invariant: parameter at least 2, well-formed board
and every tile satisfying the tile invariant with hpv = N*N. -/
def SudokuSolver.SInv (s : SudokuSolver) : Prop :=
  2 ≤ s.N ∧ s.WF ∧ ∀ p ∈ allIndices s.N,
    (s.get_tile p.1 p.2).Inv ∧ (s.get_tile p.1 p.2).hpv = s.N * s.N

instance (s : SudokuSolver) : Decidable s.SInv := by
  unfold SudokuSolver.SInv
  infer_instance

/-- The total number of candidates on the board, the termination
measure of the solve loop. -/
def totalCand (s : SudokuSolver) : Nat :=
  ((allIndices s.N).map fun p => (s.get_tile p.1 p.2).possible.length).sum

/-- The number of resolved cells, read without mutation; under the
invariant it agrees with SudokuSolver.solve_count. -/
def solvedCountPure (s : SudokuSolver) : Nat :=
  (allIndices s.N).countP fun p => decide ((s.get_tile p.1 p.2).value ≠ 0)

/-- The peers of a cell as the specification describes them: all cells
sharing its row, its column or its box, the cell itself excluded. -/
def SudokuSolver.peersList (s : SudokuSolver) (row col : Nat) : List (Nat × Nat) :=
  (allIndices s.N).filter fun p =>
    decide (p ≠ (row, col) ∧ (p.1 = row ∨ p.2 = col ∨ p ∈ s.box_indices row col))

/-- Rows list of the occurrence data of one box scan. -/
def occRows (s : SudokuSolver) (bids : List (Nat × Nat)) (val : Nat) : List Nat :=
  (collectOcc s bids val).1

/-- Columns list of the occurrence data of one box scan. -/
def occCols (s : SudokuSolver) (bids : List (Nat × Nat)) (val : Nat) : List Nat :=
  (collectOcc s bids val).2.1

/-- Occurrence count of one box scan. -/
def occCount (s : SudokuSolver) (bids : List (Nat × Nat)) (val : Nat) : Nat :=
  (collectOcc s bids val).2.2

/-- First pass of the sweep makes no progress: no resolved value is
still a candidate of (or the resolved value of) any cell the re-commit
loop would visit. -/
def NoPeerHasValue (s : SudokuSolver) : Prop :=
  ∀ p ∈ allIndices s.N, (s.get_tile p.1 p.2).value ≠ 0 →
    ∀ q ∈ s.commitVisits p.1 p.2,
      (s.get_tile p.1 p.2).value ∉ (s.get_tile q.1 q.2).possible ∧
      (s.get_tile p.1 p.2).value ≠ (s.get_tile q.1 q.2).value

instance (s : SudokuSolver) : Decidable (NoPeerHasValue s) := by
  unfold NoPeerHasValue
  infer_instance

/-- The box scan makes no progress on this box and value: the
occurrence set is nonempty (no IndexError), a lone occurrence is
already resolved, and when the occurrences align on one row or one
column nothing outside the box on that line still carries the value. -/
def OccSettled (s : SudokuSolver) (bids : List (Nat × Nat)) (val : Nat) : Prop :=
  occCount s bids val ≠ 0 ∧
  (occCount s bids val = 1 →
    (s.get_tile ((occRows s bids val).headD 0) ((occCols s bids val).headD 0)).value ≠ 0) ∧
  (occCount s bids val ≠ 1 → (occRows s bids val).length = 1 →
    ∀ cc ∈ List.range (s.N * s.N), ((occRows s bids val).headD 0, cc) ∉ bids →
      val ∉ (s.get_tile ((occRows s bids val).headD 0) cc).possible ∧
      val ≠ (s.get_tile ((occRows s bids val).headD 0) cc).value) ∧
  (occCount s bids val ≠ 1 → (occRows s bids val).length ≠ 1 →
    (occCols s bids val).length = 1 →
    ∀ rr ∈ List.range (s.N * s.N), (rr, (occCols s bids val).headD 0) ∉ bids →
      val ∉ (s.get_tile rr ((occCols s bids val).headD 0)).possible ∧
      val ≠ (s.get_tile rr ((occCols s bids val).headD 0)).value)

instance (s : SudokuSolver) (bids : List (Nat × Nat)) (val : Nat) :
    Decidable (OccSettled s bids val) := by
  unfold OccSettled
  refine @instDecidableAnd _ _ ?_ (@instDecidableAnd _ _ ?_ (@instDecidableAnd _ _ ?_ ?_)) <;>
    infer_instance

/-- The box scan makes no progress anywhere on the grid. -/
def BoxScanSettled (s : SudokuSolver) : Prop :=
  ∀ b ∈ boxList s.N, ∀ val ∈ List.range' 1 (s.N * s.N),
    OccSettled s (s.box_indices (b.1 * s.N) (b.2 * s.N)) val

instance (s : SudokuSolver) : Decidable (BoxScanSettled s) := by
  unfold BoxScanSettled
  infer_instance

/-- The lonesome scan (which, as written, only examines the stale value
N*N) makes no progress: every lone occurrence cell of that value is
already resolved. -/
def LonesomeSettled (s : SudokuSolver) : Prop :=
  ∀ a ∈ List.range (s.N * s.N),
    ((lonesome s a (s.N * s.N)).2.length = 1 →
      (s.get_tile a ((lonesome s a (s.N * s.N)).2.headD 0)).value ≠ 0) ∧
    ((lonesome s a (s.N * s.N)).1.length = 1 →
      (s.get_tile ((lonesome s a (s.N * s.N)).1.headD 0) a).value ≠ 0)

instance (s : SudokuSolver) : Decidable (LonesomeSettled s) := by
  unfold LonesomeSettled
  infer_instance

/-- A fixed point of the sweep: a well-formed invariant-satisfying
state on which no elimination or placement rule of refresh_possible
makes progress. -/
def FixedPoint (s : SudokuSolver) : Prop :=
  s.SInv ∧ NoPeerHasValue s ∧ BoxScanSettled s ∧ LonesomeSettled s

instance (s : SudokuSolver) : Decidable (FixedPoint s) := by
  unfold FixedPoint
  infer_instance

/-- Applies one engine elimination and keeps the new state (the states
used below are built only from successful eliminations, which the
claim theorems also record). -/
def afterRemove (s : SudokuSolver) (r c v : Nat) : SudokuSolver :=
  match s.remove_possible r c v with
  | .ok p => p.1
  | .error _ => s

/-- Blank 4x4 grid in which candidate 1 was eliminated from (0,1),
(0,2) and (0,3): value 1 is then a hidden single of row 0 at the
unresolved cell (0,0). -/
def hiddenSingleState : SudokuSolver :=
  afterRemove (afterRemove (afterRemove (blankGrid 2) 0 1 1) 0 2 1) 0 3 1

/-- Blank 4x4 grid in which candidate 1 was eliminated from all four
cells of box 0, so the box scan meets an empty occurrence set. -/
def emptyBoxState : SudokuSolver :=
  afterRemove (afterRemove (afterRemove (afterRemove (blankGrid 2) 0 0 1) 0 1 1) 1 0 1) 1 1 1

/-- A 4x4 grid of resolved tiles. -/
def mkResolved (vals : List (List Nat)) : SudokuSolver :=
  { N := 2, board := vals.map (List.map fun v => { value := v, hpv := 4, possible := [v] }) }

/-- A fully solved valid 4x4 grid. -/
def solvedGrid : SudokuSolver :=
  mkResolved [[1, 2, 3, 4], [3, 4, 1, 2], [2, 1, 4, 3], [4, 3, 2, 1]]

/-- A 4x4 grid with the value 1 twice in row 0 and no other line
duplicate. -/
def rowdupGrid : SudokuSolver :=
  mkResolved [[1, 1, 3, 4], [3, 4, 1, 2], [2, 3, 4, 1], [4, 2, 1, 3]]

/-- A 4x4 grid whose rows and columns are duplicate-free but whose box 0
holds the value 1 twice (at (0,0) and (1,1)). -/
def boxdupGrid : SudokuSolver :=
  mkResolved [[1, 2, 3, 4], [2, 1, 4, 3], [3, 4, 1, 2], [4, 3, 2, 1]]

/-- Claim-side predicate, following the words of the specification: some
line (as a function from position to resolved value) carries the same
nonzero value at two distinct positions. -/
def specLineDup (vals : Nat → Nat) (n : Nat) : Prop :=
  ∃ i < n, ∃ j < n, i ≠ j ∧ vals i = vals j ∧ vals i ≠ 0

instance (vals : Nat → Nat) (n : Nat) : Decidable (specLineDup vals n) := by
  unfold specLineDup
  infer_instance

/-- Claim-side predicate: some row or some column of the grid contains
two equal nonzero resolved values. -/
def specHasDuplicate (s : SudokuSolver) : Prop :=
  (∃ a < s.N * s.N, specLineDup (fun b => (s.get_tile a b).value) (s.N * s.N)) ∨
  (∃ a < s.N * s.N, specLineDup (fun b => (s.get_tile b a).value) (s.N * s.N))

instance (s : SudokuSolver) : Decidable (specHasDuplicate s) := by
  unfold specHasDuplicate
  infer_instance

/-- Pure mirror of the validate inner loop: the same scan on the value
functions vr (row direction) and vc (column direction) without the
state threading, used to factor the validate proof. -/
def scanSpec (vr vc : Nat → Nat) : List Nat → List Nat → List Nat → Bool
  | [], _, _ => true
  | b :: bs, ab, ba =>
    if vr b ≠ EMPTY ∧ vr b ∈ ab then false
    else if vc b ≠ EMPTY ∧ vc b ∈ ba then false
    else scanSpec vr vc bs (ab.insert (vr b)) (ba.insert (vc b))


/-- The state of the blank 4x4 grid after commit(0, 0, 1): value 1
placed at (0, 0) and removed from the seven peer candidate lists. -/
def commitScenarioResult : SudokuSolver :=
  { N := 2
    board :=
      [[{ value := 1, hpv := 4, possible := [1] },
        { value := 0, hpv := 4, possible := [2, 3, 4] },
        { value := 0, hpv := 4, possible := [2, 3, 4] },
        { value := 0, hpv := 4, possible := [2, 3, 4] }],
       [{ value := 0, hpv := 4, possible := [2, 3, 4] },
        { value := 0, hpv := 4, possible := [2, 3, 4] },
        { value := 0, hpv := 4, possible := [1, 2, 3, 4] },
        { value := 0, hpv := 4, possible := [1, 2, 3, 4] }],
       [{ value := 0, hpv := 4, possible := [2, 3, 4] },
        { value := 0, hpv := 4, possible := [1, 2, 3, 4] },
        { value := 0, hpv := 4, possible := [1, 2, 3, 4] },
        { value := 0, hpv := 4, possible := [1, 2, 3, 4] }],
       [{ value := 0, hpv := 4, possible := [2, 3, 4] },
        { value := 0, hpv := 4, possible := [1, 2, 3, 4] },
        { value := 0, hpv := 4, possible := [1, 2, 3, 4] },
        { value := 0, hpv := 4, possible := [1, 2, 3, 4] }]] }


/-- The per-cell step of the box-scan occurrence fold (identical to the
lambda inside collectOcc, named for the proofs). -/
def occStep (s : SudokuSolver) (val : Nat) (acc : List Nat × List Nat × Nat)
    (p : Nat × Nat) : List Nat × List Nat × Nat :=
  if val ∈ (s.get_tile p.1 p.2).possible then
    ((if p.1 ∈ acc.1 then acc.1 else acc.1 ++ [p.1]),
     (if p.2 ∈ acc.2.1 then acc.2.1 else acc.2.1 ++ [p.2]),
     acc.2.2 + 1)
  else acc

/-- The per-cell step of the lonesome-scan fold (identical to the lambda
inside lonesome, named for the proofs). -/
def lonesomeStep (s : SudokuSolver) (a val : Nat) (acc : List Nat × List Nat)
    (b : Nat) : List Nat × List Nat :=
  ((if val ∈ (s.get_tile b a).possible then acc.1 ++ [b] else acc.1),
   (if val ∈ (s.get_tile a b).possible then acc.2 ++ [b] else acc.2))


/-- The per-cell step of the solve_count fold (identical to the lambda
inside solve_count, named for the proofs). -/
def solveCountStep (st : SudokuSolver × Nat) (p : Nat × Nat) : SudokuSolver × Nat :=
  let q := (st.1.get_tile p.1 p.2).resolve
  (st.1.set_tile p.1 p.2 q.1, if q.2 ≠ 0 then st.2 + 1 else st.2)

/-- Progress relation used to prove termination of the solve loop: under
the invariant a sweep fragment keeps the invariant, preserves N and
resolved values, never increases the total number of candidates, never
decreases the running elimination counter, and strictly decreases the
candidate total whenever the counter grew. -/
def Rprog (st st2 : SudokuSolver × Nat) : Prop :=
  st.1.SInv →
    (st2.1.SInv ∧ st2.1.N = st.1.N ∧
     (∀ r c : Nat, (st.1.get_tile r c).value ≠ 0 →
        (st2.1.get_tile r c).value = (st.1.get_tile r c).value) ∧
     totalCand st2.1 ≤ totalCand st.1 ∧ st.2 ≤ st2.2 ∧
     (st.2 < st2.2 → totalCand st2.1 < totalCand st.1))


/-- Rprog relativised to a fixed grid parameter, so that fold bodies can
use bounds stated for the sweep entry state. -/
def RprogN (N0 : Nat) (st st2 : SudokuSolver × Nat) : Prop :=
  st.1.N = N0 → Rprog st st2

/-- Progress relation for the inner pointing-reduction folds, whose state
carries the solver, the running removed counter of one line scan and the
sweep counter n: removed only grows, the candidate total drops by at
least the growth of removed, and n grows only once removed is positive. -/
def Rred (x x2 : SudokuSolver × Nat × Nat) : Prop :=
  x.1.SInv →
    (x2.1.SInv ∧ x2.1.N = x.1.N ∧
     (∀ r c : Nat, (x.1.get_tile r c).value ≠ 0 →
        (x2.1.get_tile r c).value = (x.1.get_tile r c).value) ∧
     x.2.1 ≤ x2.2.1 ∧
     totalCand x2.1 + (x2.2.1 - x.2.1) ≤ totalCand x.1 ∧
     x.2.2 ≤ x2.2.2 ∧
     (x.2.2 < x2.2.2 → 0 < x2.2.1))

/-- Rred relativised to a fixed grid parameter. -/
def RredN (N0 : Nat) (x x2 : SudokuSolver × Nat × Nat) : Prop :=
  x.1.N = N0 → Rred x x2

-- ===== theorems =====

/-- The EMPTY marker is the integer 0. -/
theorem EMPTY_def : EMPTY = 0 := rfl

namespace SudokuTile

theorem set_fst_value (t : SudokuTile) (v : Nat) : ((t.set v).1).value = v := by
  unfold set
  by_cases h : v = t.value <;> simp [h]

theorem set_fst_possible (t : SudokuTile) (v : Nat) : ((t.set v).1).possible = [v] := by
  unfold set
  by_cases h : v = t.value <;> simp [h]

theorem set_fst_hpv (t : SudokuTile) (v : Nat) : ((t.set v).1).hpv = t.hpv := by
  unfold set
  by_cases h : v = t.value <;> simp [h]

theorem resolve_of_value_ne (t : SudokuTile) (h : t.value ≠ 0) :
    t.resolve = (t, t.value) := by
  unfold resolve
  simp [h]

theorem resolve_of_len_ne (t : SudokuTile) (h : t.value = 0)
    (h2 : t.possible.length ≠ 1) : t.resolve = (t, 0) := by
  unfold resolve
  rw [if_neg (by simp [h])]
  split
  · next v heq => rw [heq] at h2; simp at h2
  · rw [h]

theorem resolve_singleton (t : SudokuTile) (v : Nat) (h : t.value = 0)
    (hp : t.possible = [v]) (hv : v ≠ 0) :
    t.resolve = ({ t with value := v, possible := [v] }, v) := by
  unfold resolve set
  simp only [h, hp]
  simp [hv]

theorem resolve_fst_possible (t : SudokuTile) :
    ((t.resolve).1).possible = t.possible := by
  unfold resolve
  by_cases h : t.value ≠ 0
  · simp [h]
  · rw [if_neg h]
    split
    · next v heq => simp [set_fst_possible, heq]
    · rfl

theorem resolve_fst_hpv (t : SudokuTile) : ((t.resolve).1).hpv = t.hpv := by
  unfold resolve
  by_cases h : t.value ≠ 0
  · simp [h]
  · rw [if_neg h]
    split
    · next v heq => simp [set_fst_hpv]
    · rfl

theorem resolve_fst_value_of_ne (t : SudokuTile) (h : t.value ≠ 0) :
    ((t.resolve).1).value = t.value := by
  rw [resolve_of_value_ne t h]

theorem remove_of_eq (t : SudokuTile) (v : Nat) (h : v = t.value) :
    t.remove_possible v = (t, SAME_VALUE) := by
  unfold remove_possible
  simp [h]

theorem remove_of_absent (t : SudokuTile) (v : Nat) (h1 : v ≠ t.value)
    (h2 : v ∉ t.possible) : t.remove_possible v = (t, NONE_REMOVED) := by
  unfold remove_possible
  simp [h1, h2]

theorem remove_of_mem (t : SudokuTile) (v : Nat) (h1 : v ≠ t.value)
    (h2 : v ∈ t.possible) :
    t.remove_possible v =
      ((({ t with possible := t.possible.erase v }).resolve).1, OK) := by
  unfold remove_possible
  simp [h1, h2]

theorem remove_fst_possible (t : SudokuTile) (v : Nat) (h1 : v ≠ t.value) :
    ((t.remove_possible v).1).possible = t.possible.erase v := by
  by_cases h2 : v ∈ t.possible
  · rw [remove_of_mem t v h1 h2]
    exact resolve_fst_possible _
  · rw [remove_of_absent t v h1 h2, List.erase_of_not_mem h2]

theorem remove_fst_hpv (t : SudokuTile) (v : Nat) :
    ((t.remove_possible v).1).hpv = t.hpv := by
  by_cases h1 : v = t.value
  · rw [remove_of_eq t v h1]
  · by_cases h2 : v ∈ t.possible
    · rw [remove_of_mem t v h1 h2]
      exact resolve_fst_hpv _
    · rw [remove_of_absent t v h1 h2]

theorem remove_fst_value_of_ne (t : SudokuTile) (v : Nat) (h : t.value ≠ 0) :
    ((t.remove_possible v).1).value = t.value := by
  by_cases h1 : v = t.value
  · rw [remove_of_eq t v h1]
  · by_cases h2 : v ∈ t.possible
    · rw [remove_of_mem t v h1 h2]
      exact resolve_fst_value_of_ne _ h
    · rw [remove_of_absent t v h1 h2]

theorem inv_init (hpv : Nat) (h : 2 ≤ hpv) : (init hpv).Inv := by
  have hposs : (init hpv).possible = List.range' 1 hpv := rfl
  have hval : (init hpv).value = 0 := rfl
  have hlen : (List.range' 1 hpv).length = hpv := by simp
  have hh : (init hpv).hpv = hpv := rfl
  refine ⟨?_, h, ?_, ?_, ?_⟩
  · intro x hx
    rw [hposs] at hx
    rw [hh]
    have := List.mem_range'_1.mp hx
    omega
  · rw [hposs]; exact List.nodup_range' _ _
  · rw [hval, hposs]
    constructor
    · intro hv; exact absurd rfl hv
    · intro hp
      have : (List.range' 1 hpv).length = 1 := by rw [hp]; rfl
      omega
  · intro _
    rw [hposs]
    omega

theorem resolve_of_inv (t : SudokuTile) (h : t.Inv) : t.resolve = (t, t.value) := by
  by_cases hv : t.value ≠ 0
  · exact resolve_of_value_ne t hv
  · push_neg at hv
    have hlen := h.2.2.2.2 hv
    rw [resolve_of_len_ne t hv (by omega), hv]

end SudokuTile

namespace SudokuTile

theorem inv_set (t : SudokuTile) (v : Nat) (hv : 1 ≤ v ∧ v ≤ t.hpv)
    (h : t.Inv) : ((t.set v).1).Inv := by
  obtain ⟨-, hh, -, -, -⟩ := h
  have h1 := set_fst_value t v
  have h2 := set_fst_possible t v
  have h3 := set_fst_hpv t v
  refine ⟨?_, by omega, ?_, ?_, ?_⟩
  · intro x hx
    rw [h2] at hx
    simp at hx
    omega
  · rw [h2]; simp
  · rw [h1, h2]
    constructor
    · intro _; rfl
    · intro _; omega
  · intro h0
    rw [h1] at h0
    omega

theorem inv_resolve (t : SudokuTile) (h : t.Inv) : ((t.resolve).1).Inv := by
  rw [resolve_of_inv t h]
  exact h

theorem inv_resolve_unresolved (t : SudokuTile)
    (hb : ∀ x ∈ t.possible, 1 ≤ x ∧ x ≤ t.hpv) (hh : 2 ≤ t.hpv)
    (hnd : t.possible.Nodup) (hv0 : t.value = 0) (hne : t.possible ≠ []) :
    ((t.resolve).1).Inv := by
  match hp : t.possible with
  | [] => exact absurd hp hne
  | [w] =>
    have hw : 1 ≤ w ∧ w ≤ t.hpv := hb w (by rw [hp]; simp)
    have hr := resolve_singleton t w hv0 hp (by omega)
    rw [hr]
    refine ⟨?_, hh, by simp, ?_, ?_⟩
    · intro x hx
      simp at hx
      subst hx
      exact hw
    · have : ¬ w = 0 := by omega
      simp [this]
    · intro hc
      simp at hc
      omega
  | w :: w2 :: rest =>
    have hL : t.possible.length ≠ 1 := by rw [hp]; simp
    rw [resolve_of_len_ne t hv0 hL]
    refine ⟨hb, hh, hnd, ?_, ?_⟩
    · rw [hv0]
      constructor
      · intro hc; exact absurd rfl hc
      · intro hc
        have : t.possible.length = 1 := by rw [hc]; rfl
        exact absurd this hL
    · intro _
      rw [hp]
      simp

theorem inv_remove (t : SudokuTile) (v : Nat) (h : t.Inv) :
    ((t.remove_possible v).1).Inv := by
  by_cases h1 : v = t.value
  · rw [remove_of_eq t v h1]; exact h
  by_cases h2 : v ∈ t.possible
  · rw [remove_of_mem t v h1 h2]
    obtain ⟨hb, hh, hnd, hiff, hlen⟩ := h
    have hv0 : t.value = 0 := by
      by_contra hv
      rw [hiff.mp hv] at h2
      simp at h2
      exact h1 h2
    have hplen : 2 ≤ t.possible.length := hlen hv0
    have helen : (t.possible.erase v).length = t.possible.length - 1 :=
      List.length_erase_of_mem h2
    exact inv_resolve_unresolved { t with possible := t.possible.erase v }
      (fun x hx => hb x (List.erase_subset _ _ hx)) hh
      (List.Nodup.erase v hnd) hv0
      (by
        intro hc
        have hc2 : t.possible.erase v = [] := hc
        rw [hc2] at helen
        simp at helen
        omega)
  · rw [remove_of_absent t v h1 h2]; exact h

theorem inv_reset (t : SudokuTile) (h : t.Inv) : (t.reset_possible).Inv := by
  obtain ⟨hb, hh, hnd, hiff, hlen⟩ := h
  unfold reset_possible
  by_cases h0 : t.value = EMPTY
  · rw [if_pos h0]
    have h2 : (List.range' 1 t.hpv).length = t.hpv := by simp
    refine ⟨?_, hh, List.nodup_range' _ _, ?_, ?_⟩
    · intro x hx
      show 1 ≤ x ∧ x ≤ t.hpv
      have := List.mem_range'_1.mp hx
      omega
    · show t.value ≠ 0 ↔ List.range' 1 t.hpv = [t.value]
      rw [h0]
      constructor
      · intro hc; exact absurd rfl hc
      · intro hp
        have : (List.range' 1 t.hpv).length = 1 := by rw [hp]; rfl
        omega
    · intro _
      show 2 ≤ (List.range' 1 t.hpv).length
      omega
  · rw [if_neg h0]
    have hvp : t.possible = [t.value] := hiff.mp h0
    have hv : 1 ≤ t.value ∧ t.value ≤ t.hpv := hb t.value (by rw [hvp]; simp)
    refine ⟨?_, hh, by simp, by simp [EMPTY_def] at h0; simp [h0], ?_⟩
    · intro x hx
      simp at hx
      subst hx
      exact hv
    · intro hc; rw [EMPTY_def] at h0; exact absurd hc h0

end SudokuTile

theorem TileOp.apply_hpv (t : SudokuTile) (op : TileOp) :
    (op.apply t).hpv = t.hpv := by
  cases op with
  | place v => exact SudokuTile.set_fst_hpv t v
  | eliminate v => exact SudokuTile.remove_fst_hpv t v
  | doResolve => exact SudokuTile.resolve_fst_hpv t
  | doReset =>
    show (t.reset_possible).hpv = t.hpv
    unfold SudokuTile.reset_possible
    by_cases h : t.value = EMPTY <;> simp [h]

theorem TileOp.apply_inv (t : SudokuTile) (op : TileOp) (h : t.Inv)
    (hl : op.Legal t.hpv) : (op.apply t).Inv := by
  cases op with
  | place v => exact SudokuTile.inv_set t v hl h
  | eliminate v => exact SudokuTile.inv_remove t v h
  | doResolve => exact SudokuTile.inv_resolve t h
  | doReset => exact SudokuTile.inv_reset t h

theorem TileOp.apply_value_ne (t : SudokuTile) (op : TileOp)
    (hl : op.Legal t.hpv) (h : t.value ≠ 0) : (op.apply t).value ≠ 0 := by
  cases op with
  | place v =>
    obtain ⟨hv1, hv2⟩ := hl
    rw [TileOp.apply, SudokuTile.set_fst_value]
    omega
  | eliminate v => rw [TileOp.apply, SudokuTile.remove_fst_value_of_ne t v h]; exact h
  | doResolve => rw [TileOp.apply, SudokuTile.resolve_fst_value_of_ne t h]; exact h
  | doReset =>
    show (t.reset_possible).value ≠ 0
    unfold SudokuTile.reset_possible
    rw [EMPTY_def]
    by_cases h0 : t.value = 0
    · exact absurd h0 h
    · rw [if_neg h0]; exact h

theorem TileOp.foldl_inv (ops : List TileOp) : ∀ t : SudokuTile, t.Inv →
    (∀ op ∈ ops, op.Legal t.hpv) →
    (ops.foldl TileOp.apply t).Inv ∧ (ops.foldl TileOp.apply t).hpv = t.hpv := by
  induction ops with
  | nil => intro t h _; exact ⟨h, rfl⟩
  | cons op rest ih =>
    intro t h hl
    have h1 : (op.apply t).Inv := op.apply_inv t h (hl op (by simp))
    have h2 : (op.apply t).hpv = t.hpv := op.apply_hpv t
    have := ih (op.apply t) h1 (by
      intro o ho
      rw [h2]
      exact hl o (by simp [ho]))
    rw [List.foldl_cons]
    exact ⟨this.1, by rw [this.2, h2]⟩

theorem statuses_distinct : SAME_VALUE ≠ OK ∧ SAME_VALUE ≠ NONE_REMOVED ∧
    OK ≠ NONE_REMOVED := by decide

/-- C3: the eliminate contract of SudokuTile.remove_possible and its
SudokuSolver wrapper: the tile call reports SAME_VALUE exactly when the
value equals the resolved value of the tile (and the wrapper escalates
exactly that case to the fatal error); an absent value is a complete
no-op reporting NONE_REMOVED; a present value different from the
resolved one is removed (exactly it) with status OK. -/
theorem claim_C3_eliminate_contract :
    (∀ (t : SudokuTile) (v : Nat),
      ((t.remove_possible v).2 = SAME_VALUE ↔ v = t.value) ∧
      (v ≠ t.value → v ∉ t.possible → t.remove_possible v = (t, NONE_REMOVED)) ∧
      (v ≠ t.value → v ∈ t.possible →
        (t.remove_possible v).2 = OK ∧
        ((t.remove_possible v).1).possible = t.possible.erase v)) ∧
    (∀ (s : SudokuSolver) (r c v : Nat),
      ((∃ e, s.remove_possible r c v = .error e) ↔ v = (s.get_tile r c).value) ∧
      (∀ e, s.remove_possible r c v = .error e → e = .contradiction)) := by
  have tile : ∀ (t : SudokuTile) (v : Nat),
      ((t.remove_possible v).2 = SAME_VALUE ↔ v = t.value) ∧
      (v ≠ t.value → v ∉ t.possible → t.remove_possible v = (t, NONE_REMOVED)) ∧
      (v ≠ t.value → v ∈ t.possible →
        (t.remove_possible v).2 = OK ∧
        ((t.remove_possible v).1).possible = t.possible.erase v) := by
    intro t v
    refine ⟨?_, ?_, ?_⟩
    · constructor
      · intro hs
        by_contra hne
        by_cases hm : v ∈ t.possible
        · rw [SudokuTile.remove_of_mem t v hne hm] at hs
          have hbad : OK = SAME_VALUE := hs
          exact absurd hbad (by decide)
        · rw [SudokuTile.remove_of_absent t v hne hm] at hs
          have hbad : NONE_REMOVED = SAME_VALUE := hs
          exact absurd hbad (by decide)
      · intro he
        rw [SudokuTile.remove_of_eq t v he]
    · intro h1 h2
      exact SudokuTile.remove_of_absent t v h1 h2
    · intro h1 h2
      refine ⟨?_, SudokuTile.remove_fst_possible t v h1⟩
      rw [SudokuTile.remove_of_mem t v h1 h2]
  refine ⟨tile, ?_⟩
  intro s r c v
  have hred : s.remove_possible r c v =
      (if ((s.get_tile r c).remove_possible v).2 = SAME_VALUE then
        Except.error SolveErr.contradiction
      else
        Except.ok (s.set_tile r c ((s.get_tile r c).remove_possible v).1,
          decide (((s.get_tile r c).remove_possible v).2 = OK))) := rfl
  rw [hred]
  by_cases h : ((s.get_tile r c).remove_possible v).2 = SAME_VALUE
  · rw [if_pos h]
    refine ⟨⟨fun _ => ((tile (s.get_tile r c) v).1).mp h,
      fun _ => ⟨.contradiction, rfl⟩⟩, ?_⟩
    intro e he
    injection he with h2
    exact h2.symm
  · rw [if_neg h]
    refine ⟨⟨?_, ?_⟩, ?_⟩
    · intro ⟨e, he⟩
      exact absurd he (by simp)
    · intro hv
      exact absurd (((tile (s.get_tile r c) v).1).mpr hv) h
    · intro e he
      exact absurd he (by simp)

/-- C3 witness: an unresolved tile with candidates 1..4 loses exactly
candidate 3 with status OK. -/
theorem claim_C3_eliminate_contract_witness :
    ((3 : Nat) ≠ ({ value := 0, hpv := 4, possible := [1, 2, 3, 4] } : SudokuTile).value ∧
      (3 : Nat) ∈ ({ value := 0, hpv := 4, possible := [1, 2, 3, 4] } : SudokuTile).possible) ∧
    ((({ value := 0, hpv := 4, possible := [1, 2, 3, 4] } : SudokuTile).remove_possible 3).2 = OK ∧
      ((({ value := 0, hpv := 4, possible := [1, 2, 3, 4] } : SudokuTile).remove_possible 3).1).possible =
        ({ value := 0, hpv := 4, possible := [1, 2, 3, 4] } : SudokuTile).possible.erase 3) :=
  ⟨⟨by decide, by decide⟩,
    (claim_C3_eliminate_contract.1 { value := 0, hpv := 4, possible := [1, 2, 3, 4] } 3).2.2
      (by decide) (by decide)⟩

/-- C5: candidate sets never grow under eliminate: each single call
shrinks or preserves the candidate list, hence so does any sequence of
calls. -/
theorem claim_C5_monotonic :
    (∀ (t : SudokuTile) (v : Nat), ((t.remove_possible v).1).possible ⊆ t.possible) ∧
    (∀ (t : SudokuTile) (vs : List Nat),
      ((vs.foldl (fun u w => (u.remove_possible w).1) t).possible ⊆ t.possible)) := by
  have single : ∀ (t : SudokuTile) (v : Nat),
      ((t.remove_possible v).1).possible ⊆ t.possible := by
    intro t v
    by_cases h1 : v = t.value
    · rw [SudokuTile.remove_of_eq t v h1]
      exact fun x hx => hx
    · rw [SudokuTile.remove_fst_possible t v h1]
      exact List.erase_subset _ _
  refine ⟨single, ?_⟩
  intro t vs
  induction vs generalizing t with
  | nil => simp
  | cons v rest ih =>
    rw [List.foldl_cons]
    exact fun x hx => single t v (ih ((t.remove_possible v).1) hx)

/-- C4: starting from a fresh tile of a grid with parameter N of at
least 2 and applying any sequence of legal engine operations, the
resolution invariant holds (value nonzero exactly when the candidate
list is the singleton of the value), and one further legal operation
never takes a resolved tile back to unresolved. -/
theorem claim_C4_tile_invariant (N : Nat) (hN : 2 ≤ N) (ops : List TileOp)
    (hops : ∀ op ∈ ops, op.Legal (N * N)) :
    ((ops.foldl TileOp.apply (SudokuTile.init (N * N))).value ≠ 0 ↔
      (ops.foldl TileOp.apply (SudokuTile.init (N * N))).possible =
        [(ops.foldl TileOp.apply (SudokuTile.init (N * N))).value]) ∧
    (∀ op : TileOp, op.Legal (N * N) →
      (ops.foldl TileOp.apply (SudokuTile.init (N * N))).value ≠ 0 →
      (op.apply (ops.foldl TileOp.apply (SudokuTile.init (N * N)))).value ≠ 0) := by
  have hNN : 2 ≤ N * N := le_trans hN (Nat.le_mul_of_pos_left N (by omega))
  have hhpv : (SudokuTile.init (N * N)).hpv = N * N := rfl
  have hmain := TileOp.foldl_inv ops (SudokuTile.init (N * N))
    (SudokuTile.inv_init (N * N) hNN) (by rw [hhpv]; exact hops)
  refine ⟨hmain.1.2.2.2.1, ?_⟩
  intro op hl hv
  exact TileOp.apply_value_ne _ op (by rw [hmain.2, hhpv]; exact hl) hv

/-- C4 witness: placing 3 and then eliminating 2 on a fresh 4x4 tile. -/
theorem claim_C4_tile_invariant_witness :
    (2 ≤ 2 ∧ (∀ op ∈ [TileOp.place 3, TileOp.eliminate 2], op.Legal (2 * 2))) ∧
    ((([TileOp.place 3, TileOp.eliminate 2].foldl TileOp.apply
        (SudokuTile.init (2 * 2))).value ≠ 0 ↔
      ([TileOp.place 3, TileOp.eliminate 2].foldl TileOp.apply
        (SudokuTile.init (2 * 2))).possible =
        [([TileOp.place 3, TileOp.eliminate 2].foldl TileOp.apply
          (SudokuTile.init (2 * 2))).value]) ∧
    (∀ op : TileOp, op.Legal (2 * 2) →
      ([TileOp.place 3, TileOp.eliminate 2].foldl TileOp.apply
        (SudokuTile.init (2 * 2))).value ≠ 0 →
      (op.apply ([TileOp.place 3, TileOp.eliminate 2].foldl TileOp.apply
        (SudokuTile.init (2 * 2)))).value ≠ 0)) :=
  ⟨⟨by decide, by decide⟩,
    claim_C4_tile_invariant 2 (by decide) [TileOp.place 3, TileOp.eliminate 2] (by decide)⟩

/-- C10: under the same legal reachability as C4, the candidate list is
never empty and an unresolved tile always keeps at least two
candidates. -/
theorem claim_C10_no_empty_candidates (N : Nat) (hN : 2 ≤ N) (ops : List TileOp)
    (hops : ∀ op ∈ ops, op.Legal (N * N)) :
    (ops.foldl TileOp.apply (SudokuTile.init (N * N))).possible ≠ [] ∧
    ((ops.foldl TileOp.apply (SudokuTile.init (N * N))).value = 0 →
      2 ≤ (ops.foldl TileOp.apply (SudokuTile.init (N * N))).possible.length) := by
  have hNN : 2 ≤ N * N := le_trans hN (Nat.le_mul_of_pos_left N (by omega))
  have hhpv : (SudokuTile.init (N * N)).hpv = N * N := rfl
  have hmain := TileOp.foldl_inv ops (SudokuTile.init (N * N))
    (SudokuTile.inv_init (N * N) hNN) (by rw [hhpv]; exact hops)
  obtain ⟨-, -, -, hiff, hlen⟩ := hmain.1
  constructor
  · intro hc
    by_cases hv : (ops.foldl TileOp.apply (SudokuTile.init (N * N))).value = 0
    · have := hlen hv
      rw [hc] at this
      simp at this
    · have := hiff.mp hv
      rw [hc] at this
      exact absurd this.symm (by simp)
  · exact hlen

/-- C10 witness: three eliminations on a fresh 4x4 tile. -/
theorem claim_C10_no_empty_candidates_witness :
    (2 ≤ 2 ∧ (∀ op ∈ [TileOp.eliminate 1, TileOp.eliminate 2, TileOp.eliminate 3],
        op.Legal (2 * 2))) ∧
    (([TileOp.eliminate 1, TileOp.eliminate 2, TileOp.eliminate 3].foldl TileOp.apply
        (SudokuTile.init (2 * 2))).possible ≠ [] ∧
      (([TileOp.eliminate 1, TileOp.eliminate 2, TileOp.eliminate 3].foldl TileOp.apply
        (SudokuTile.init (2 * 2))).value = 0 →
        2 ≤ ([TileOp.eliminate 1, TileOp.eliminate 2, TileOp.eliminate 3].foldl TileOp.apply
          (SudokuTile.init (2 * 2))).possible.length)) :=
  ⟨⟨by decide, by decide⟩,
    claim_C10_no_empty_candidates 2 (by decide)
      [TileOp.eliminate 1, TileOp.eliminate 2, TileOp.eliminate 3] (by decide)⟩

theorem list_set_getD_self {α : Type} : ∀ (l : List α) (n : Nat) (d : α),
    l.set n (l.getD n d) = l
  | [], _, _ => by simp
  | a :: as, 0, d => by simp
  | a :: as, n + 1, d => by
    simp only [List.set_cons_succ, List.getD_cons_succ]
    rw [list_set_getD_self as n d]

theorem getD_lt {α : Type} (l : List α) (n : Nat) (d : α) (h : n < l.length) :
    l.getD n d = l[n] := by
  rw [List.getD_eq_getElem?_getD, List.getElem?_eq_getElem h]
  rfl

theorem getD_le {α : Type} (l : List α) (n : Nat) (d : α) (h : l.length ≤ n) :
    l.getD n d = d := by
  rw [List.getD_eq_getElem?_getD, List.getElem?_eq_none h]
  rfl

theorem getD_set_self {α : Type} (l : List α) (n : Nat) (a d : α)
    (h : n < l.length) : (l.set n a).getD n d = a := by
  rw [List.getD_eq_getElem?_getD, List.getElem?_set_self h]
  rfl

theorem getD_set_ne {α : Type} (l : List α) (n m : Nat) (a d : α) (h : n ≠ m) :
    (l.set n a).getD m d = l.getD m d := by
  rw [List.getD_eq_getElem?_getD, List.getElem?_set_ne h, ← List.getD_eq_getElem?_getD]

namespace SudokuSolver

theorem set_tile_N (s : SudokuSolver) (r c : Nat) (t : SudokuTile) :
    (s.set_tile r c t).N = s.N := rfl

theorem set_tile_get_self (s : SudokuSolver) (r c : Nat) :
    s.set_tile r c (s.get_tile r c) = s := by
  unfold set_tile get_tile
  rw [list_set_getD_self, list_set_getD_self]

theorem set_tile_oob (s : SudokuSolver) (r c : Nat) (t : SudokuTile)
    (h : s.board.length ≤ r) : s.set_tile r c t = s := by
  unfold set_tile
  rw [List.set_eq_of_length_le h]

theorem get_tile_set_ne (s : SudokuSolver) (r c r' c' : Nat) (t : SudokuTile)
    (h : (r', c') ≠ (r, c)) :
    (s.set_tile r c t).get_tile r' c' = s.get_tile r' c' := by
  unfold set_tile get_tile
  simp only
  by_cases hr : r' = r
  · subst hr
    have hc : c ≠ c' := by
      intro hc
      exact h (by rw [hc])
    by_cases hrl : r' < s.board.length
    · rw [getD_set_self _ _ _ _ hrl, getD_set_ne _ _ _ _ _ hc]
    · push_neg at hrl
      rw [List.set_eq_of_length_le hrl]
  · rw [getD_set_ne _ _ _ _ _ (fun hrr => hr hrr.symm)]

theorem get_tile_set_self (s : SudokuSolver) (r c : Nat) (t : SudokuTile)
    (hr : r < s.board.length) (hc : c < (s.board.getD r []).length) :
    (s.set_tile r c t).get_tile r c = t := by
  unfold set_tile get_tile
  simp only
  rw [getD_set_self _ _ _ _ hr, getD_set_self _ _ _ _ hc]

theorem WF_set_tile (s : SudokuSolver) (r c : Nat) (t : SudokuTile) (h : s.WF) :
    (s.set_tile r c t).WF := by
  by_cases hrl : r < s.board.length
  · obtain ⟨h1, h2⟩ := h
    constructor
    · show (s.board.set r _).length = s.N * s.N
      rw [List.length_set]
      exact h1
    · intro row hrow
      rcases List.mem_or_eq_of_mem_set hrow with hmem | heq
      · exact h2 row hmem
      · subst heq
        rw [List.length_set, getD_lt _ _ _ hrl]
        exact h2 _ (List.getElem_mem hrl)
  · push_neg at hrl
    rw [set_tile_oob s r c t hrl]
    exact h

/-- With a well-formed board, a cell index below N*N is inside the
concrete lists. -/
theorem bounds_of_WF (s : SudokuSolver) (h : s.WF) (r c : Nat)
    (hr : r < s.N * s.N) (hc : c < s.N * s.N) :
    r < s.board.length ∧ c < (s.board.getD r []).length := by
  obtain ⟨h1, h2⟩ := h
  have hrb : r < s.board.length := by rw [h1]; exact hr
  refine ⟨hrb, ?_⟩
  rw [getD_lt _ _ _ hrb]
  rw [h2 _ (List.getElem_mem hrb)]
  exact hc

theorem get_tile_set_self_wf (s : SudokuSolver) (r c : Nat) (t : SudokuTile)
    (h : s.WF) (hr : r < s.N * s.N) (hc : c < s.N * s.N) :
    (s.set_tile r c t).get_tile r c = t := by
  obtain ⟨h1, h2⟩ := bounds_of_WF s h r c hr hc
  exact get_tile_set_self s r c t h1 h2

end SudokuSolver

namespace SudokuSolver

theorem remove_possible_err (s : SudokuSolver) (r c v : Nat)
    (h : v = (s.get_tile r c).value) :
    s.remove_possible r c v = .error .contradiction := by
  have hred : s.remove_possible r c v =
      (if ((s.get_tile r c).remove_possible v).2 = SAME_VALUE then
        Except.error SolveErr.contradiction
      else .ok (s.set_tile r c ((s.get_tile r c).remove_possible v).1,
        decide (((s.get_tile r c).remove_possible v).2 = OK))) := rfl
  rw [hred, SudokuTile.remove_of_eq _ v h]
  simp

theorem remove_possible_ok (s : SudokuSolver) (r c v : Nat)
    (h : v ≠ (s.get_tile r c).value) :
    s.remove_possible r c v =
      .ok (s.set_tile r c ((s.get_tile r c).remove_possible v).1,
        decide (v ∈ (s.get_tile r c).possible)) := by
  have hred : s.remove_possible r c v =
      (if ((s.get_tile r c).remove_possible v).2 = SAME_VALUE then
        Except.error SolveErr.contradiction
      else .ok (s.set_tile r c ((s.get_tile r c).remove_possible v).1,
        decide (((s.get_tile r c).remove_possible v).2 = OK))) := rfl
  rw [hred]
  by_cases hm : v ∈ (s.get_tile r c).possible
  · rw [SudokuTile.remove_of_mem _ v h hm]
    simp only [OK, SAME_VALUE]
    simp [hm]
  · rw [SudokuTile.remove_of_absent _ v h hm]
    simp only [OK, SAME_VALUE, NONE_REMOVED]
    simp [hm]

theorem remove_possible_noop (s : SudokuSolver) (r c v : Nat)
    (h1 : v ≠ (s.get_tile r c).value) (h2 : v ∉ (s.get_tile r c).possible) :
    s.remove_possible r c v = .ok (s, false) := by
  rw [remove_possible_ok s r c v h1, SudokuTile.remove_of_absent _ v h1 h2]
  rw [set_tile_get_self]
  simp [h2]

end SudokuSolver

theorem removeMany_cons (v : Nat) (s : SudokuSolver) (p : Nat × Nat)
    (ps : List (Nat × Nat)) (n : Nat) :
    removeMany v s (p :: ps) n =
      match s.remove_possible p.1 p.2 v with
      | .error e => .error e
      | .ok (s1, b) => removeMany v s1 ps (n + if b then 1 else 0) := rfl

theorem removeMany_noop (v : Nat) : ∀ (L : List (Nat × Nat)) (s : SudokuSolver) (n : Nat),
    (∀ p ∈ L, v ≠ (s.get_tile p.1 p.2).value ∧ v ∉ (s.get_tile p.1 p.2).possible) →
    removeMany v s L n = .ok (s, n)
  | [], s, n, _ => rfl
  | p :: ps, s, n, h => by
    rw [removeMany_cons, s.remove_possible_noop p.1 p.2 v (h p (by simp)).1 (h p (by simp)).2]
    show removeMany v s ps (n + if false then 1 else 0) = .ok (s, n)
    have : (n + if false then 1 else 0) = n := by simp
    rw [this]
    exact removeMany_noop v ps s n (fun q hq => h q (by simp [hq]))

theorem removeMany_spec (v : Nat) :
    ∀ (L : List (Nat × Nat)) (s s' : SudokuSolver) (n0 n' : Nat),
    s.WF →
    (∀ p ∈ L, p.1 < s.N * s.N ∧ p.2 < s.N * s.N) →
    (∀ p ∈ L, (s.get_tile p.1 p.2).possible.Nodup) →
    removeMany v s L n0 = .ok (s', n') →
    s'.N = s.N ∧ s'.WF ∧
    (∀ q : Nat × Nat, q ∉ L → s'.get_tile q.1 q.2 = s.get_tile q.1 q.2) ∧
    (∀ q ∈ L,
      (s'.get_tile q.1 q.2).possible = (s.get_tile q.1 q.2).possible.erase v ∧
      (s'.get_tile q.1 q.2).hpv = (s.get_tile q.1 q.2).hpv ∧
      v ≠ (s.get_tile q.1 q.2).value ∧
      ((s.get_tile q.1 q.2).value ≠ 0 →
        (s'.get_tile q.1 q.2).value = (s.get_tile q.1 q.2).value)) ∧
    n' = n0 + (L.toFinset.filter fun q => v ∈ (s.get_tile q.1 q.2).possible).card
  | [], s, s', n0, n', _, _, _, hok => by
    have h1 : s' = s ∧ n' = n0 := by
      have h0 : (Except.ok (s, n0) : Except SolveErr (SudokuSolver × Nat)) =
          .ok (s', n') := hok
      injection h0 with h2
      exact ⟨congrArg Prod.fst h2 |>.symm, congrArg Prod.snd h2 |>.symm⟩
    obtain ⟨hs, hn⟩ := h1
    subst hs hn
    refine ⟨rfl, ‹_›, fun q _ => rfl, by simp, by simp⟩
  | p :: ps, s, s', n0, n', hwf, hbnd, hnd, hok => by
    by_cases hv : v = (s.get_tile p.1 p.2).value
    · rw [removeMany_cons, s.remove_possible_err p.1 p.2 v hv] at hok
      exact absurd hok (by simp)
    · rw [removeMany_cons, s.remove_possible_ok p.1 p.2 v hv] at hok
      have hpb := hbnd p (by simp)
      -- the updated state after the head visit
      have hok2 : removeMany v
          (s.set_tile p.1 p.2 ((s.get_tile p.1 p.2).remove_possible v).1) ps
          (n0 + if decide (v ∈ (s.get_tile p.1 p.2).possible) then 1 else 0) =
          .ok (s', n') := hok
      have hN1 : (s.set_tile p.1 p.2 ((s.get_tile p.1 p.2).remove_possible v).1).N = s.N :=
        rfl
      have hWF1 := s.WF_set_tile p.1 p.2 ((s.get_tile p.1 p.2).remove_possible v).1 hwf
      have hget1p : (s.set_tile p.1 p.2 ((s.get_tile p.1 p.2).remove_possible v).1).get_tile
          p.1 p.2 = ((s.get_tile p.1 p.2).remove_possible v).1 :=
        s.get_tile_set_self_wf p.1 p.2 _ hwf hpb.1 hpb.2
      have hget1ne : ∀ q : Nat × Nat, q ≠ p →
          (s.set_tile p.1 p.2 ((s.get_tile p.1 p.2).remove_possible v).1).get_tile q.1 q.2 =
          s.get_tile q.1 q.2 := by
        intro q hq
        exact s.get_tile_set_ne p.1 p.2 q.1 q.2 _ (by
          intro hc
          exact hq (Prod.ext (congrArg Prod.fst hc) (congrArg Prod.snd hc)))
      have hposs1p : (((s.get_tile p.1 p.2).remove_possible v).1).possible =
          (s.get_tile p.1 p.2).possible.erase v :=
        SudokuTile.remove_fst_possible _ v hv
      have hndp : (s.get_tile p.1 p.2).possible.Nodup := hnd p (by simp)
      have ih := removeMany_spec v ps
        (s.set_tile p.1 p.2 ((s.get_tile p.1 p.2).remove_possible v).1) s'
        (n0 + if decide (v ∈ (s.get_tile p.1 p.2).possible) then 1 else 0) n'
        hWF1
        (by
          intro q hq
          rw [hN1]
          exact hbnd q (by simp [hq]))
        (by
          intro q hq
          by_cases hqp : q = p
          · subst hqp
            rw [hget1p, hposs1p]
            exact List.Nodup.erase v hndp
          · rw [hget1ne q hqp]
            exact hnd q (by simp [hq]))
        hok2
      obtain ⟨ihN, ihWF, ihframe, ihmem, ihcount⟩ := ih
      have hvnotin1p : v ∉ (((s.get_tile p.1 p.2).remove_possible v).1).possible := by
        rw [hposs1p]
        exact List.Nodup.not_mem_erase hndp
      refine ⟨by rw [ihN, hN1], ihWF, ?_, ?_, ?_⟩
      · intro q hq
        have hq1 : q ∉ ps := fun hc => hq (by simp [hc])
        have hq2 : q ≠ p := fun hc => hq (by simp [hc])
        rw [ihframe q hq1, hget1ne q hq2]
      · intro q hq
        by_cases hqps : q ∈ ps
        · have := ihmem q hqps
          by_cases hqp : q = p
          · subst hqp
            rw [hget1p, hposs1p] at this
            refine ⟨?_, ?_, hv, ?_⟩
            · rw [this.1, List.erase_of_not_mem (List.Nodup.not_mem_erase hndp)]
            · rw [this.2.1, SudokuTile.remove_fst_hpv]
            · intro hval
              have hstep := SudokuTile.remove_fst_value_of_ne (s.get_tile q.1 q.2) v hval
              have := this.2.2.2 (by rw [hstep]; exact hval)
              rw [this, hstep]
          · rw [hget1ne q hqp] at this
            exact this
        · have hqp : q = p := by
            rcases List.mem_cons.mp hq with h | h
            · exact h
            · exact absurd h hqps
          subst hqp
          rw [ihframe q hqps, hget1p]
          refine ⟨hposs1p, SudokuTile.remove_fst_hpv _ v, hv, ?_⟩
          intro hval
          exact SudokuTile.remove_fst_value_of_ne _ v hval
      · -- counting
        rw [ihcount]
        have hP1p : v ∉ ((s.set_tile p.1 p.2 ((s.get_tile p.1 p.2).remove_possible v).1).get_tile
            p.1 p.2).possible := by
          rw [hget1p]
          exact hvnotin1p
        have hfilter : ps.toFinset.filter
            (fun q => v ∈ ((s.set_tile p.1 p.2
              ((s.get_tile p.1 p.2).remove_possible v).1).get_tile q.1 q.2).possible) =
            (ps.toFinset.filter fun q => v ∈ (s.get_tile q.1 q.2).possible).erase p := by
          ext x
          simp only [Finset.mem_filter, Finset.mem_erase, List.mem_toFinset]
          constructor
          · intro ⟨hx1, hx2⟩
            by_cases hxp : x = p
            · exfalso
              rw [hxp] at hx2
              rw [hget1p] at hx2
              exact hvnotin1p hx2
            · rw [hget1ne x hxp] at hx2
              exact ⟨hxp, hx1, hx2⟩
          · intro ⟨hx0, hx1, hx2⟩
            rw [hget1ne x hx0]
            exact ⟨hx1, hx2⟩
        rw [hfilter]
        have htc : (p :: ps).toFinset = insert p ps.toFinset := List.toFinset_cons
        rw [htc]
        by_cases hb : v ∈ (s.get_tile p.1 p.2).possible
        · rw [Finset.filter_insert, if_pos hb]
          have hbT : decide (v ∈ (s.get_tile p.1 p.2).possible) = true := by simp [hb]
          rw [hbT]
          simp only [if_true]
          by_cases hpf : p ∈ ps.toFinset.filter fun q => v ∈ (s.get_tile q.1 q.2).possible
          · rw [Finset.card_erase_of_mem hpf]
            rw [Finset.insert_eq_self.mpr hpf]
            have : 1 ≤ (ps.toFinset.filter fun q => v ∈ (s.get_tile q.1 q.2).possible).card :=
              Finset.card_pos.mpr ⟨p, hpf⟩
            omega
          · rw [Finset.erase_eq_of_not_mem hpf, Finset.card_insert_of_not_mem hpf]
            omega
        · rw [Finset.filter_insert, if_neg hb]
          have hbF : decide (v ∈ (s.get_tile p.1 p.2).possible) = false := by simp [hb]
          rw [hbF]
          simp only [Bool.false_eq_true, if_false]
          have hpf : p ∉ ps.toFinset.filter fun q => v ∈ (s.get_tile q.1 q.2).possible := by
            intro hc
            exact hb (Finset.mem_filter.mp hc).2
          rw [Finset.erase_eq_of_not_mem hpf]
          omega

theorem mem_allIndices (N : Nat) (q : Nat × Nat) :
    q ∈ allIndices N ↔ q.1 < N * N ∧ q.2 < N * N := by
  simp only [allIndices, List.mem_flatMap, List.mem_map, List.mem_range]
  constructor
  · rintro ⟨a, ha, b, hb, rfl⟩
    exact ⟨ha, hb⟩
  · intro ⟨h1, h2⟩
    exact ⟨q.1, h1, q.2, h2, rfl⟩

theorem allIndices_nodup (N : Nat) : (allIndices N).Nodup :=
  List.Nodup.product (List.nodup_range _) (List.nodup_range _)

namespace SudokuSolver

theorem mem_box_indices (s : SudokuSolver) (row col : Nat) (q : Nat × Nat) :
    q ∈ s.box_indices row col ↔
      ∃ i < s.N, ∃ j < s.N, q = (row / s.N * s.N + i, col / s.N * s.N + j) := by
  simp only [box_indices, List.mem_flatMap, List.mem_map, List.mem_range]
  constructor
  · rintro ⟨i, hi, j, hj, rfl⟩
    exact ⟨i, hi, j, hj, rfl⟩
  · rintro ⟨i, hi, j, hj, rfl⟩
    exact ⟨i, hi, j, hj, rfl⟩

theorem box_indices_bounds (s : SudokuSolver) (row col : Nat)
    (hrow : row < s.N * s.N) (hcol : col < s.N * s.N) (q : Nat × Nat)
    (hq : q ∈ s.box_indices row col) : q.1 < s.N * s.N ∧ q.2 < s.N * s.N := by
  rw [mem_box_indices] at hq
  obtain ⟨i, hi, j, hj, rfl⟩ := hq
  have hN : 0 < s.N := by
    rcases Nat.eq_zero_or_pos s.N with h0 | h
    · rw [h0] at hi; omega
    · exact h
  have h1 : row / s.N < s.N := Nat.div_lt_of_lt_mul hrow
  have h2 : col / s.N < s.N := Nat.div_lt_of_lt_mul hcol
  constructor
  · show row / s.N * s.N + i < s.N * s.N
    calc row / s.N * s.N + i ≤ (s.N - 1) * s.N + i := by
          have : row / s.N ≤ s.N - 1 := by omega
          exact Nat.add_le_add_right (Nat.mul_le_mul_right _ this) i
    _ < (s.N - 1) * s.N + s.N := by omega
    _ = s.N * s.N := by
          have : (s.N - 1) * s.N + s.N = (s.N - 1 + 1) * s.N := by ring
          rw [this]
          congr 1
          omega
  · show col / s.N * s.N + j < s.N * s.N
    calc col / s.N * s.N + j ≤ (s.N - 1) * s.N + j := by
          have : col / s.N ≤ s.N - 1 := by omega
          exact Nat.add_le_add_right (Nat.mul_le_mul_right _ this) j
    _ < (s.N - 1) * s.N + s.N := by omega
    _ = s.N * s.N := by
          have : (s.N - 1) * s.N + s.N = (s.N - 1 + 1) * s.N := by ring
          rw [this]
          congr 1
          omega

theorem mem_commitVisits (s : SudokuSolver) (row col : Nat) (q : Nat × Nat) :
    q ∈ s.commitVisits row col ↔
      ((∃ x < s.N * s.N, x ≠ col ∧ q = (row, x)) ∨
       (∃ x < s.N * s.N, x ≠ row ∧ q = (x, col)) ∨
       (q ∈ s.box_indices row col ∧ q ≠ (row, col))) := by
  simp only [commitVisits, List.mem_append, List.mem_flatMap, List.mem_range,
    List.mem_filter]
  constructor
  · rintro (⟨x, hx, hq | hq⟩ | ⟨hq1, hq2⟩)
    · by_cases hxc : x ≠ col
      · rw [if_pos hxc] at hq
        simp at hq
        exact Or.inl ⟨x, hx, hxc, hq⟩
      · rw [if_neg hxc] at hq
        simp at hq
    · by_cases hxr : x ≠ row
      · rw [if_pos hxr] at hq
        simp at hq
        exact Or.inr (Or.inl ⟨x, hx, hxr, hq⟩)
      · rw [if_neg hxr] at hq
        simp at hq
    · exact Or.inr (Or.inr ⟨hq1, by simpa using hq2⟩)
  · rintro (⟨x, hx, hxc, rfl⟩ | ⟨x, hx, hxr, rfl⟩ | ⟨hq1, hq2⟩)
    · exact Or.inl ⟨x, hx, Or.inl (by rw [if_pos hxc]; simp)⟩
    · exact Or.inl ⟨x, hx, Or.inr (by rw [if_pos hxr]; simp)⟩
    · exact Or.inr ⟨hq1, by simpa using hq2⟩

theorem commitVisits_not_self (s : SudokuSolver) (row col : Nat) :
    (row, col) ∉ s.commitVisits row col := by
  rw [mem_commitVisits]
  rintro (⟨x, _, hxc, hq⟩ | ⟨x, _, hxr, hq⟩ | ⟨_, hq⟩)
  · exact hxc (congrArg Prod.snd hq).symm
  · exact hxr (congrArg Prod.fst hq).symm
  · exact hq rfl

theorem commitVisits_bounds (s : SudokuSolver) (row col : Nat)
    (hrow : row < s.N * s.N) (hcol : col < s.N * s.N) (q : Nat × Nat)
    (hq : q ∈ s.commitVisits row col) : q.1 < s.N * s.N ∧ q.2 < s.N * s.N := by
  rw [mem_commitVisits] at hq
  rcases hq with ⟨x, hx, _, rfl⟩ | ⟨x, hx, _, rfl⟩ | ⟨hq1, _⟩
  · exact ⟨hrow, hx⟩
  · exact ⟨hx, hcol⟩
  · exact s.box_indices_bounds row col hrow hcol q hq1

theorem mem_peersList (s : SudokuSolver) (row col : Nat) (q : Nat × Nat) :
    q ∈ s.peersList row col ↔
      q.1 < s.N * s.N ∧ q.2 < s.N * s.N ∧ q ≠ (row, col) ∧
      (q.1 = row ∨ q.2 = col ∨ q ∈ s.box_indices row col) := by
  unfold peersList
  rw [List.mem_filter]
  rw [mem_allIndices]
  simp only [decide_eq_true_eq]
  tauto

theorem commitVisits_iff_peers (s : SudokuSolver) (row col : Nat)
    (hrow : row < s.N * s.N) (hcol : col < s.N * s.N) (q : Nat × Nat) :
    q ∈ s.commitVisits row col ↔ q ∈ s.peersList row col := by
  rw [mem_commitVisits, mem_peersList]
  constructor
  · rintro (⟨x, hx, hxc, rfl⟩ | ⟨x, hx, hxr, rfl⟩ | ⟨hq1, hq2⟩)
    · refine ⟨hrow, hx, ?_, Or.inl rfl⟩
      intro hc
      exact hxc (congrArg Prod.snd hc)
    · refine ⟨hx, hcol, ?_, Or.inr (Or.inl rfl)⟩
      intro hc
      exact hxr (congrArg Prod.fst hc)
    · exact ⟨(s.box_indices_bounds row col hrow hcol q hq1).1,
        (s.box_indices_bounds row col hrow hcol q hq1).2, hq2,
        Or.inr (Or.inr hq1)⟩
  · rintro ⟨h1, h2, h3, h4 | h4 | h4⟩
    · refine Or.inl ⟨q.2, h2, ?_, ?_⟩
      · intro hc
        exact h3 (Prod.ext h4 hc)
      · exact Prod.ext h4 rfl
    · refine Or.inr (Or.inl ⟨q.1, h1, ?_, ?_⟩)
      · intro hc
        exact h3 (Prod.ext hc h4)
      · exact Prod.ext rfl h4
    · exact Or.inr (Or.inr ⟨h4, h3⟩)

end SudokuSolver

namespace SudokuSolver

theorem commitVisits_set_tile (s : SudokuSolver) (r c : Nat) (t : SudokuTile)
    (row col : Nat) :
    (s.set_tile r c t).commitVisits row col = s.commitVisits row col := rfl

theorem commit_eq (s : SudokuSolver) (row col val : Nat) (hval : val ≠ 0) :
    s.commit row col val =
      removeMany val (s.set_tile row col ((s.get_tile row col).set val).1)
        (s.commitVisits row col) 0 := by
  unfold commit
  simp only
  rw [commitVisits_set_tile]
  by_cases hp : ((s.get_tile row col).set val).2
  · rw [if_pos hp]
    rw [SudokuTile.resolve_of_value_ne _ (by rw [SudokuTile.set_fst_value]; exact hval)]
  · rw [if_neg hp]

end SudokuSolver

/-- C2: commit places the value at the cell, eliminates it from every
peer (and no other cell) and returns the number of peers whose candidate
set actually shrank; on an all-blank 4x4 grid, commit(0,0,1) removes
candidate 1 from exactly the seven peers of (0,0) and returns 7. -/
theorem claim_C2_commit :
    (∀ (s : SudokuSolver) (row col val : Nat) (s' : SudokuSolver) (n : Nat),
      s.SInv → row < s.N * s.N → col < s.N * s.N →
      1 ≤ val → val ≤ s.N * s.N →
      s.commit row col val = .ok (s', n) →
      (s'.get_tile row col).value = val ∧
      (s'.get_tile row col).possible = [val] ∧
      (∀ q ∈ s.peersList row col, val ∉ (s'.get_tile q.1 q.2).possible) ∧
      (∀ q : Nat × Nat, q ≠ (row, col) → q ∉ s.peersList row col →
        s'.get_tile q.1 q.2 = s.get_tile q.1 q.2) ∧
      n = ((s.peersList row col).filter
        (fun q => decide (val ∈ (s.get_tile q.1 q.2).possible))).length) ∧
    ((blankGrid 2).commit 0 0 1).toOption.map
        (fun pr => (pr.2, (allIndices 2).map fun q => (pr.1.get_tile q.1 q.2).possible)) =
      some (7,
        [[1], [2, 3, 4], [2, 3, 4], [2, 3, 4],
         [2, 3, 4], [2, 3, 4], [1, 2, 3, 4], [1, 2, 3, 4],
         [2, 3, 4], [1, 2, 3, 4], [1, 2, 3, 4], [1, 2, 3, 4],
         [2, 3, 4], [1, 2, 3, 4], [1, 2, 3, 4], [1, 2, 3, 4]]) := by
  constructor
  · intro s row col val s' n hs hrow hcol hv1 hv2 hok
    obtain ⟨hN2, hwf, htiles⟩ := hs
    rw [s.commit_eq row col val (by omega)] at hok
    have hwf1 : (s.set_tile row col ((s.get_tile row col).set val).1).WF :=
      s.WF_set_tile _ _ _ hwf
    have hN1 : (s.set_tile row col ((s.get_tile row col).set val).1).N = s.N := rfl
    have hget1self : (s.set_tile row col ((s.get_tile row col).set val).1).get_tile row col
        = ((s.get_tile row col).set val).1 :=
      s.get_tile_set_self_wf row col _ hwf hrow hcol
    have hget1ne : ∀ q : Nat × Nat, q ≠ (row, col) →
        (s.set_tile row col ((s.get_tile row col).set val).1).get_tile q.1 q.2 =
        s.get_tile q.1 q.2 := by
      intro q hq
      exact s.get_tile_set_ne row col q.1 q.2 _ (by
        intro hc
        exact hq (Prod.ext (congrArg Prod.fst hc) (congrArg Prod.snd hc)))
    have hvisits_ne : ∀ q ∈ s.commitVisits row col, q ≠ (row, col) := by
      intro q hq hc
      rw [hc] at hq
      exact s.commitVisits_not_self row col hq
    have hspec := removeMany_spec val (s.commitVisits row col)
      (s.set_tile row col ((s.get_tile row col).set val).1) s' 0 n
      hwf1
      (by
        intro q hq
        rw [hN1]
        exact s.commitVisits_bounds row col hrow hcol q hq)
      (by
        intro q hq
        rw [hget1ne q (hvisits_ne q hq)]
        have hb := s.commitVisits_bounds row col hrow hcol q hq
        exact (htiles q ((mem_allIndices s.N q).mpr hb)).1.2.2.1)
      hok
    obtain ⟨hN', hWF', hframe, hmem, hcount⟩ := hspec
    have htarget : s'.get_tile row col = ((s.get_tile row col).set val).1 := by
      rw [hframe (row, col) (s.commitVisits_not_self row col), hget1self]
    refine ⟨?_, ?_, ?_, ?_, ?_⟩
    · rw [htarget, SudokuTile.set_fst_value]
    · rw [htarget, SudokuTile.set_fst_possible]
    · intro q hq
      have hqv : q ∈ s.commitVisits row col :=
        (s.commitVisits_iff_peers row col hrow hcol q).mpr hq
      have := (hmem q hqv).1
      rw [hget1ne q (hvisits_ne q hqv)] at this
      rw [this]
      have hb := s.commitVisits_bounds row col hrow hcol q hqv
      exact List.Nodup.not_mem_erase
        (htiles q ((mem_allIndices s.N q).mpr hb)).1.2.2.1
    · intro q hq1 hq2
      have hqv : q ∉ s.commitVisits row col := by
        intro hc
        exact hq2 ((s.commitVisits_iff_peers row col hrow hcol q).mp hc)
      rw [hframe q hqv, hget1ne q hq1]
    · rw [hcount]
      have hpred : ∀ q ∈ (s.commitVisits row col).toFinset,
          (val ∈ ((s.set_tile row col ((s.get_tile row col).set val).1).get_tile
            q.1 q.2).possible ↔ val ∈ (s.get_tile q.1 q.2).possible) := by
        intro q hq
        rw [hget1ne q (hvisits_ne q (List.mem_toFinset.mp hq))]
      have hsetseq : (s.commitVisits row col).toFinset = (s.peersList row col).toFinset := by
        ext q
        rw [List.mem_toFinset, List.mem_toFinset]
        exact s.commitVisits_iff_peers row col hrow hcol q
      have hfeq : ((s.commitVisits row col).toFinset.filter fun q =>
          val ∈ ((s.set_tile row col ((s.get_tile row col).set val).1).get_tile
            q.1 q.2).possible) =
          ((s.peersList row col).toFinset.filter fun q =>
            val ∈ (s.get_tile q.1 q.2).possible) := by
        rw [← hsetseq]
        exact Finset.filter_congr (by
          intro q hq
          exact hpred q hq)
      rw [hfeq]
      have hnodup : (s.peersList row col).Nodup :=
        List.Nodup.filter _ (allIndices_nodup s.N)
      have hfin : ((s.peersList row col).filter
          (fun q => decide (val ∈ (s.get_tile q.1 q.2).possible))).toFinset =
          (s.peersList row col).toFinset.filter
            (fun q => val ∈ (s.get_tile q.1 q.2).possible) := by
        rw [List.toFinset_filter]
        exact Finset.filter_congr (by
          intro q hq
          constructor
          · intro hh
            simpa using hh
          · intro hh
            simpa using hh)
      rw [← hfin]
      rw [List.toFinset_card_of_nodup (List.Nodup.filter _ hnodup)]
      omega
  · rfl

/-- C2 witness: the general commit contract applied to the blank 4x4
grid at (0, 0) with value 1. -/
theorem claim_C2_commit_witness :
    ((blankGrid 2).SInv ∧ (0 : Nat) < (blankGrid 2).N * (blankGrid 2).N ∧
      (1 : Nat) ≤ 1 ∧ (1 : Nat) ≤ (blankGrid 2).N * (blankGrid 2).N ∧
      (blankGrid 2).commit 0 0 1 = .ok (commitScenarioResult, 7)) ∧
    ((commitScenarioResult.get_tile 0 0).value = 1 ∧
      (commitScenarioResult.get_tile 0 0).possible = [1]) :=
  ⟨⟨by decide, by decide, by decide, by decide, rfl⟩,
    (claim_C2_commit.1 (blankGrid 2) 0 0 1 commitScenarioResult 7 (by decide) (by decide)
      (by decide) (by decide) (by decide) rfl).1,
    (claim_C2_commit.1 (blankGrid 2) 0 0 1 commitScenarioResult 7 (by decide) (by decide)
      (by decide) (by decide) (by decide) rfl).2.1⟩

/-- C1: code bug in the hidden-single scan.  The state reached from the
blank 4x4 grid by three successful engine eliminations has value 1 as a
hidden single of row 0: the scan data of the source code itself
(lonesome) lists column 0 as the only cell of row 0 carrying candidate
1, and that cell is unresolved.  Yet a full refresh_possible sweep
completes (returning 7) and leaves (0, 0) unresolved: the scan loop
rebinds its value variable b and tests the stale variable val, which
still holds N*N from the box pass, so hidden singles of any other value
are never placed. -/
theorem claim_C1_hidden_single_code_bug :
    ((blankGrid 2).remove_possible 0 1 1 =
      .ok (afterRemove (blankGrid 2) 0 1 1, true)) ∧
    ((afterRemove (blankGrid 2) 0 1 1).remove_possible 0 2 1 =
      .ok (afterRemove (afterRemove (blankGrid 2) 0 1 1) 0 2 1, true)) ∧
    ((afterRemove (afterRemove (blankGrid 2) 0 1 1) 0 2 1).remove_possible 0 3 1 =
      .ok (hiddenSingleState, true)) ∧
    hiddenSingleState.SInv ∧
    (lonesome hiddenSingleState 0 1).2 = [0] ∧
    (hiddenSingleState.get_tile 0 0).value = 0 ∧
    1 ∈ (hiddenSingleState.get_tile 0 0).possible ∧
    (hiddenSingleState.refresh_possible).toOption.map
      (fun pr => ((pr.1.get_tile 0 0).value, pr.2)) = some (0, 7) :=
  ⟨rfl, rfl, rfl, by decide, by decide, by decide, by decide, rfl⟩

/-- C9 counterexample: a well-formed state reached from the blank 4x4
grid by four successful engine eliminations on which a propagateOnce
sweep neither completes nor signals the Contradiction error: it faults
with the IndexError of the unguarded rows[0] lookup. -/
theorem claim_C9_counterexample :
    ((blankGrid 2).remove_possible 0 0 1 =
      .ok (afterRemove (blankGrid 2) 0 0 1, true)) ∧
    ((afterRemove (blankGrid 2) 0 0 1).remove_possible 0 1 1 =
      .ok (afterRemove (afterRemove (blankGrid 2) 0 0 1) 0 1 1, true)) ∧
    ((afterRemove (afterRemove (blankGrid 2) 0 0 1) 0 1 1).remove_possible 1 0 1 =
      .ok (afterRemove (afterRemove (afterRemove (blankGrid 2) 0 0 1) 0 1 1) 1 0 1, true)) ∧
    ((afterRemove (afterRemove (afterRemove (blankGrid 2) 0 0 1) 0 1 1) 1 0 1).remove_possible
        1 1 1 = .ok (emptyBoxState, true)) ∧
    emptyBoxState.SInv ∧
    emptyBoxState.refresh_possible = .error .indexError ∧
    SolveErr.indexError ≠ SolveErr.contradiction :=
  ⟨rfl, rfl, rfl, rfl, by decide, rfl, by decide⟩

/-- C9 amended: the box scan faults with an IndexError, distinct from
the defined Contradiction, when it reaches a (box, value) pair whose
occurrence set is empty; such states are reachable through the exposed
eliminate operation, as the state emptyBoxState shows: box (0, 0) has an
empty occurrence set for value 1 and the sweep raises indexError. -/
theorem claim_C9_index_error :
    occCount emptyBoxState (emptyBoxState.box_indices 0 0) 1 = 0 ∧
    (occRows emptyBoxState (emptyBoxState.box_indices 0 0) 1 = [] ∧
      occCols emptyBoxState (emptyBoxState.box_indices 0 0) 1 = []) ∧
    emptyBoxState.refresh_possible = .error .indexError :=
  ⟨rfl, ⟨rfl, rfl⟩, rfl⟩

namespace SudokuSolver

theorem resolve_noop_of_SInv (s : SudokuSolver) (hs : s.SInv) (r c : Nat)
    (hr : r < s.N * s.N) (hc : c < s.N * s.N) :
    (s.get_tile r c).resolve = (s.get_tile r c, (s.get_tile r c).value) :=
  SudokuTile.resolve_of_inv _ (hs.2.2 (r, c) ((mem_allIndices s.N (r, c)).mpr ⟨hr, hc⟩)).1

end SudokuSolver

theorem mem_foldl_insert (f : Nat → Nat) : ∀ (l : List Nat) (ab : List Nat) (x : Nat),
    (x ∈ l.foldl (fun acc b => acc.insert (f b)) ab ↔ x ∈ ab ∨ ∃ b ∈ l, f b = x)
  | [], ab, x => by simp
  | b :: bs, ab, x => by
    rw [List.foldl_cons]
    rw [mem_foldl_insert f bs (ab.insert (f b)) x]
    simp only [List.mem_insert_iff, List.mem_cons]
    constructor
    · rintro ((h | h) | ⟨b2, hb2, hfb2⟩)
      · exact Or.inr ⟨b, Or.inl rfl, h.symm⟩
      · exact Or.inl h
      · exact Or.inr ⟨b2, Or.inr hb2, hfb2⟩
    · rintro (h | ⟨b2, hb2 | hb2, hfb2⟩)
      · exact Or.inl (Or.inr h)
      · subst hb2
        exact Or.inl (Or.inl hfb2.symm)
      · exact Or.inr ⟨b2, hb2, hfb2⟩

theorem scanSpec_append (vr vc : Nat → Nat) : ∀ (l1 l2 ab ba : List Nat),
    scanSpec vr vc (l1 ++ l2) ab ba =
      (if scanSpec vr vc l1 ab ba = true then
        scanSpec vr vc l2 (l1.foldl (fun acc b => acc.insert (vr b)) ab)
          (l1.foldl (fun acc b => acc.insert (vc b)) ba)
      else false)
  | [], l2, ab, ba => by simp [scanSpec]
  | b :: l1, l2, ab, ba => by
    rw [List.cons_append]
    show (if vr b ≠ EMPTY ∧ vr b ∈ ab then false
      else if vc b ≠ EMPTY ∧ vc b ∈ ba then false
      else scanSpec vr vc (l1 ++ l2) (ab.insert (vr b)) (ba.insert (vc b))) = _
    by_cases h1 : vr b ≠ EMPTY ∧ vr b ∈ ab
    · rw [if_pos h1]
      have : scanSpec vr vc (b :: l1) ab ba = false := by
        show (if vr b ≠ EMPTY ∧ vr b ∈ ab then false else _) = false
        rw [if_pos h1]
      rw [this]
      simp
    · rw [if_neg h1]
      by_cases h2 : vc b ≠ EMPTY ∧ vc b ∈ ba
      · rw [if_pos h2]
        have : scanSpec vr vc (b :: l1) ab ba = false := by
          show (if vr b ≠ EMPTY ∧ vr b ∈ ab then false
            else if vc b ≠ EMPTY ∧ vc b ∈ ba then false else _) = false
          rw [if_neg h1, if_pos h2]
        rw [this]
        simp
      · rw [if_neg h2]
        have hstep : scanSpec vr vc (b :: l1) ab ba =
            scanSpec vr vc l1 (ab.insert (vr b)) (ba.insert (vc b)) := by
          show (if vr b ≠ EMPTY ∧ vr b ∈ ab then false
            else if vc b ≠ EMPTY ∧ vc b ∈ ba then false else _) = _
          rw [if_neg h1, if_neg h2]
        rw [hstep, List.foldl_cons, List.foldl_cons]
        exact scanSpec_append vr vc l1 l2 (ab.insert (vr b)) (ba.insert (vc b))

theorem scanSpec_range_false_iff (vr vc : Nat → Nat) : ∀ n : Nat,
    (scanSpec vr vc (List.range n) [] [] = false ↔
      specLineDup vr n ∨ specLineDup vc n)
  | 0 => by
    simp only [List.range_zero]
    show (true = false ↔ _)
    simp only [specLineDup]
    constructor
    · intro h; exact absurd h (by simp)
    · rintro (⟨i, hi, _⟩ | ⟨i, hi, _⟩) <;> omega
  | n + 1 => by
    have ih := scanSpec_range_false_iff vr vc n
    rw [List.range_succ, scanSpec_append]
    by_cases hn : scanSpec vr vc (List.range n) [] [] = true
    · rw [if_pos hn]
      have hnodup_n : ¬ (specLineDup vr n ∨ specLineDup vc n) := by
        intro hc
        rw [← ih] at hc
        rw [hn] at hc
        exact absurd hc (by simp)
      have hacc_r : ∀ x, (x ∈ (List.range n).foldl (fun acc b => acc.insert (vr b)) [] ↔
          ∃ b < n, vr b = x) := by
        intro x
        rw [mem_foldl_insert]
        simp only [List.mem_range, List.not_mem_nil, false_or]
      have hacc_c : ∀ x, (x ∈ (List.range n).foldl (fun acc b => acc.insert (vc b)) [] ↔
          ∃ b < n, vc b = x) := by
        intro x
        rw [mem_foldl_insert]
        simp only [List.mem_range, List.not_mem_nil, false_or]
      have hsingle : scanSpec vr vc [n]
          ((List.range n).foldl (fun acc b => acc.insert (vr b)) [])
          ((List.range n).foldl (fun acc b => acc.insert (vc b)) []) = false ↔
          ((vr n ≠ 0 ∧ ∃ b < n, vr b = vr n) ∨ (vc n ≠ 0 ∧ ∃ b < n, vc b = vc n)) := by
        show (if vr n ≠ EMPTY ∧ vr n ∈ _ then false
          else if vc n ≠ EMPTY ∧ vc n ∈ _ then false else scanSpec vr vc [] _ _) = false ↔ _
        rw [EMPTY_def]
        by_cases h1 : vr n ≠ 0 ∧ vr n ∈ (List.range n).foldl (fun acc b => acc.insert (vr b)) []
        · rw [if_pos h1]
          simp only [true_iff]
          exact Or.inl ⟨h1.1, (hacc_r (vr n)).mp h1.2⟩
        · rw [if_neg h1]
          by_cases h2 : vc n ≠ 0 ∧ vc n ∈ (List.range n).foldl (fun acc b => acc.insert (vc b)) []
          · rw [if_pos h2]
            simp only [true_iff]
            exact Or.inr ⟨h2.1, (hacc_c (vc n)).mp h2.2⟩
          · rw [if_neg h2]
            show (true = false ↔ _)
            constructor
            · intro h; exact absurd h (by simp)
            · rintro (⟨hv, hex⟩ | ⟨hv, hex⟩)
              · exact absurd ⟨hv, (hacc_r (vr n)).mpr hex⟩ h1
              · exact absurd ⟨hv, (hacc_c (vc n)).mpr hex⟩ h2
      rw [hsingle]
      unfold specLineDup
      constructor
      · rintro (⟨hv, b, hb, hfb⟩ | ⟨hv, b, hb, hfb⟩)
        · refine Or.inl ⟨b, by omega, n, by omega, by omega, ?_, ?_⟩
          · exact hfb
          · rw [hfb]; exact hv
        · refine Or.inr ⟨b, by omega, n, by omega, by omega, ?_, ?_⟩
          · exact hfb
          · rw [hfb]; exact hv
      · rintro (⟨i, hi, j, hj, hij, hveq, hvne⟩ | ⟨i, hi, j, hj, hij, hveq, hvne⟩)
        · by_cases hcase : i < n ∧ j < n
          · exact absurd (Or.inl ⟨i, hcase.1, j, hcase.2, hij, hveq, hvne⟩) hnodup_n
          · left
            by_cases hin : i = n
            · have hjn : j < n := by omega
              refine ⟨?_, j, hjn, ?_⟩
              · rw [← hin]; exact hvne
              · rw [← hin]; exact hveq.symm
            · have hin2 : i < n := by omega
              have hjn : j = n := by omega
              refine ⟨?_, i, hin2, ?_⟩
              · rw [← hjn, ← hveq]; exact hvne
              · rw [← hjn]; exact hveq
        · by_cases hcase : i < n ∧ j < n
          · exact absurd (Or.inr ⟨i, hcase.1, j, hcase.2, hij, hveq, hvne⟩) hnodup_n
          · right
            by_cases hin : i = n
            · have hjn : j < n := by omega
              refine ⟨?_, j, hjn, ?_⟩
              · rw [← hin]; exact hvne
              · rw [← hin]; exact hveq.symm
            · have hin2 : i < n := by omega
              have hjn : j = n := by omega
              refine ⟨?_, i, hin2, ?_⟩
              · rw [← hjn, ← hveq]; exact hvne
              · rw [← hjn]; exact hveq
    · rw [if_neg hn]
      have hfalse : scanSpec vr vc (List.range n) [] [] = false := by
        rcases Bool.eq_false_or_eq_true (scanSpec vr vc (List.range n) [] []) with h | h
        · exact absurd h hn
        · exact h
      have hdup := ih.mp hfalse
      constructor
      · intro _
        rcases hdup with ⟨i, hi, j, hj, hij, hveq, hvne⟩ | ⟨i, hi, j, hj, hij, hveq, hvne⟩
        · exact Or.inl ⟨i, by omega, j, by omega, hij, hveq, hvne⟩
        · exact Or.inr ⟨i, by omega, j, by omega, hij, hveq, hvne⟩
      · intro _
        rfl

theorem lineScan_cons (a : Nat) (s : SudokuSolver) (b : Nat) (bs ab ba : List Nat) :
    lineScan a s (b :: bs) ab ba =
      (if ((s.get_tile a b).resolve).2 ≠ EMPTY ∧ ((s.get_tile a b).resolve).2 ∈ ab then
        (s.set_tile a b ((s.get_tile a b).resolve).1, false)
      else
        (if (((s.set_tile a b ((s.get_tile a b).resolve).1).get_tile b a).resolve).2 ≠ EMPTY ∧
            (((s.set_tile a b ((s.get_tile a b).resolve).1).get_tile b a).resolve).2 ∈ ba then
          ((s.set_tile a b ((s.get_tile a b).resolve).1).set_tile b a
            (((s.set_tile a b ((s.get_tile a b).resolve).1).get_tile b a).resolve).1, false)
        else
          lineScan a ((s.set_tile a b ((s.get_tile a b).resolve).1).set_tile b a
              (((s.set_tile a b ((s.get_tile a b).resolve).1).get_tile b a).resolve).1) bs
            (ab.insert ((s.get_tile a b).resolve).2)
            (ba.insert (((s.set_tile a b ((s.get_tile a b).resolve).1).get_tile b a).resolve).2))) :=
  rfl

theorem lineScan_spec (s : SudokuSolver) (hs : s.SInv) (a : Nat) (ha : a < s.N * s.N) :
    ∀ (bs ab ba : List Nat), (∀ b ∈ bs, b < s.N * s.N) →
    lineScan a s bs ab ba =
      (s, scanSpec (fun b => (s.get_tile a b).value) (fun b => (s.get_tile b a).value)
        bs ab ba)
  | [], ab, ba, _ => rfl
  | b :: bs, ab, ba, hbs => by
    have hb : b < s.N * s.N := hbs b (by simp)
    have h1 : (s.get_tile a b).resolve = (s.get_tile a b, (s.get_tile a b).value) :=
      s.resolve_noop_of_SInv hs a b ha hb
    have h2 : (s.get_tile b a).resolve = (s.get_tile b a, (s.get_tile b a).value) :=
      s.resolve_noop_of_SInv hs b a hb ha
    rw [lineScan_cons, h1]
    simp only
    rw [s.set_tile_get_self a b, h2]
    simp only
    rw [s.set_tile_get_self b a]
    show (if (s.get_tile a b).value ≠ EMPTY ∧ (s.get_tile a b).value ∈ ab then (s, false)
      else if (s.get_tile b a).value ≠ EMPTY ∧ (s.get_tile b a).value ∈ ba then (s, false)
      else lineScan a s bs (ab.insert (s.get_tile a b).value)
        (ba.insert (s.get_tile b a).value)) = _
    have hscan : scanSpec (fun b2 => (s.get_tile a b2).value)
        (fun b2 => (s.get_tile b2 a).value) (b :: bs) ab ba =
        (if (s.get_tile a b).value ≠ EMPTY ∧ (s.get_tile a b).value ∈ ab then false
        else if (s.get_tile b a).value ≠ EMPTY ∧ (s.get_tile b a).value ∈ ba then false
        else scanSpec (fun b2 => (s.get_tile a b2).value) (fun b2 => (s.get_tile b2 a).value)
          bs (ab.insert (s.get_tile a b).value) (ba.insert (s.get_tile b a).value)) := rfl
    rw [hscan]
    by_cases hc1 : (s.get_tile a b).value ≠ EMPTY ∧ (s.get_tile a b).value ∈ ab
    · rw [if_pos hc1, if_pos hc1]
    · rw [if_neg hc1, if_neg hc1]
      by_cases hc2 : (s.get_tile b a).value ≠ EMPTY ∧ (s.get_tile b a).value ∈ ba
      · rw [if_pos hc2, if_pos hc2]
      · rw [if_neg hc2, if_neg hc2]
        exact lineScan_spec s hs a ha bs _ _ (fun x hx => hbs x (by simp [hx]))

theorem validateAux_cons (s : SudokuSolver) (a : Nat) (as : List Nat) :
    validateAux s (a :: as) =
      (match lineScan a s (List.range (s.N * s.N)) [] [] with
      | (s1, true) => validateAux s1 as
      | (s1, false) => (s1, false)) := rfl

theorem validateAux_spec (s : SudokuSolver) (hs : s.SInv) :
    ∀ (as : List Nat), (∀ a ∈ as, a < s.N * s.N) →
    validateAux s as = (s, decide (∀ a ∈ as,
      scanSpec (fun b => (s.get_tile a b).value) (fun b => (s.get_tile b a).value)
        (List.range (s.N * s.N)) [] [] = true))
  | [], _ => by simp [validateAux]
  | a :: as, has => by
    have ha : a < s.N * s.N := has a (by simp)
    rw [validateAux_cons,
      lineScan_spec s hs a ha (List.range (s.N * s.N)) [] []
        (fun x hx => List.mem_range.mp hx)]
    by_cases hf : scanSpec (fun b => (s.get_tile a b).value)
        (fun b => (s.get_tile b a).value) (List.range (s.N * s.N)) [] [] = true
    · rw [hf]
      show validateAux s as = _
      rw [validateAux_spec s hs as (fun x hx => has x (by simp [hx]))]
      have : (∀ x ∈ a :: as,
          scanSpec (fun b => (s.get_tile x b).value) (fun b => (s.get_tile b x).value)
            (List.range (s.N * s.N)) [] [] = true) ↔
          (∀ x ∈ as,
          scanSpec (fun b => (s.get_tile x b).value) (fun b => (s.get_tile b x).value)
            (List.range (s.N * s.N)) [] [] = true) := by
        constructor
        · intro h x hx
          exact h x (by simp [hx])
        · intro h x hx
          rcases List.mem_cons.mp hx with hx | hx
          · rw [hx]; exact hf
          · exact h x hx
      congr 1
      exact decide_eq_decide.mpr this.symm
    · have hf2 : scanSpec (fun b => (s.get_tile a b).value)
          (fun b => (s.get_tile b a).value) (List.range (s.N * s.N)) [] [] = false := by
        rcases Bool.eq_false_or_eq_true (scanSpec (fun b => (s.get_tile a b).value)
          (fun b => (s.get_tile b a).value) (List.range (s.N * s.N)) [] []) with h | h
        · exact absurd h hf
        · exact h
      rw [hf2]
      show (s, false) = _
      have : (∀ x ∈ a :: as,
          scanSpec (fun b => (s.get_tile x b).value) (fun b => (s.get_tile b x).value)
            (List.range (s.N * s.N)) [] [] = true) ↔ False := by
        constructor
        · intro h
          have := h a (by simp)
          rw [hf2] at this
          exact absurd this (by simp)
        · intro h; exact absurd h (by simp)
      congr 1
      have hd : decide (∀ x ∈ a :: as,
          scanSpec (fun b => (s.get_tile x b).value) (fun b => (s.get_tile b x).value)
            (List.range (s.N * s.N)) [] [] = true) = false := by
        rw [decide_eq_false_iff_not]
        intro h
        exact this.mp h
      rw [hd]

/-- C8: validate returns false exactly when some row or some column
carries the same nonzero value twice (unresolved cells never count);
with the invariant it also leaves the grid unchanged.  A solved valid
4x4 grid validates with 16 resolved cells; a row duplicate is caught;
a duplicate confined to a box is not caught and the grid still
validates. -/
theorem claim_C8_validate :
    (∀ s : SudokuSolver, s.SInv →
      (s.validate).1 = s ∧ ((s.validate).2 = false ↔ specHasDuplicate s)) ∧
    (solvedGrid.validate = (solvedGrid, true) ∧ (solvedGrid.solve_count).2 = 16) ∧
    rowdupGrid.validate = (rowdupGrid, false) ∧
    (boxdupGrid.validate = (boxdupGrid, true) ∧
      (boxdupGrid.get_tile 0 0).value = 1 ∧ (boxdupGrid.get_tile 1 1).value = 1 ∧
      ((1, 1) : Nat × Nat) ∈ boxdupGrid.box_indices 0 0 ∧
      ¬ specHasDuplicate boxdupGrid) := by
  refine ⟨?_, ⟨rfl, rfl⟩, rfl, ⟨rfl, rfl, rfl, by decide, by decide⟩⟩
  intro s hs
  have hv := validateAux_spec s hs (List.range (s.N * s.N))
    (fun x hx => List.mem_range.mp hx)
  constructor
  · show (validateAux s (List.range (s.N * s.N))).1 = s
    rw [hv]
  · show (validateAux s (List.range (s.N * s.N))).2 = false ↔ _
    rw [hv]
    simp only [decide_eq_false_iff_not]
    constructor
    · intro hnot
      by_contra hnd
      apply hnot
      intro a hamem
      rcases Bool.eq_false_or_eq_true (scanSpec (fun b => (s.get_tile a b).value)
        (fun b => (s.get_tile b a).value) (List.range (s.N * s.N)) [] []) with hta | hfa
      · exact hta
      · have hdup := (scanSpec_range_false_iff (fun b => (s.get_tile a b).value)
          (fun b => (s.get_tile b a).value) (s.N * s.N)).mp hfa
        exfalso
        apply hnd
        rcases hdup with hd | hd
        · exact Or.inl ⟨a, List.mem_range.mp hamem, hd⟩
        · exact Or.inr ⟨a, List.mem_range.mp hamem, hd⟩
    · intro hdup hall
      rcases hdup with ⟨a, ha, hd⟩ | ⟨a, ha, hd⟩
      · have hta := hall a (List.mem_range.mpr ha)
        have hfa := (scanSpec_range_false_iff (fun b => (s.get_tile a b).value)
          (fun b => (s.get_tile b a).value) (s.N * s.N)).mpr (Or.inl hd)
        rw [hta] at hfa
        exact absurd hfa (by simp)
      · have hta := hall a (List.mem_range.mpr ha)
        have hfa := (scanSpec_range_false_iff (fun b => (s.get_tile a b).value)
          (fun b => (s.get_tile b a).value) (s.N * s.N)).mpr (Or.inr hd)
        rw [hta] at hfa
        exact absurd hfa (by simp)

/-- C8 witness: the validate contract on the solved grid. -/
theorem claim_C8_validate_witness :
    solvedGrid.SInv ∧ ((solvedGrid.validate).1 = solvedGrid ∧
      ((solvedGrid.validate).2 = false ↔ specHasDuplicate solvedGrid)) :=
  ⟨by decide, claim_C8_validate.1 solvedGrid (by decide)⟩

theorem foldME_id {σ α : Type} (body : σ → α → Except SolveErr σ) :
    ∀ (L : List α) (st : σ), (∀ a ∈ L, body st a = .ok st) →
    foldME body st L = .ok st
  | [], st, _ => rfl
  | a :: as, st, h => by
    show (match body st a with
      | Except.error e => Except.error e
      | Except.ok st1 => foldME body st1 as) = Except.ok st
    rw [h a (by simp)]
    exact foldME_id body as st (fun x hx => h x (by simp [hx]))


theorem collectOcc_eq_foldl (s : SudokuSolver) (bids : List (Nat × Nat)) (val : Nat) :
    collectOcc s bids val = bids.foldl (occStep s val) ([], [], 0) := rfl

theorem lonesome_eq_foldl (s : SudokuSolver) (a val : Nat) :
    lonesome s a val = (List.range (s.N * s.N)).foldl (lonesomeStep s a val) ([], []) := rfl

theorem occStep_foldl_shape (s : SudokuSolver) (val : Nat) :
    ∀ (bids : List (Nat × Nat)) (acc : List Nat × List Nat × Nat),
    ((acc.1 = [] ∧ acc.2.1 = [] ∧ acc.2.2 = 0) ∨
      (acc.1 ≠ [] ∧ acc.2.1 ≠ [] ∧ acc.2.2 ≠ 0)) →
    (((bids.foldl (occStep s val) acc).1 = [] ∧
      (bids.foldl (occStep s val) acc).2.1 = [] ∧
      (bids.foldl (occStep s val) acc).2.2 = 0) ∨
      ((bids.foldl (occStep s val) acc).1 ≠ [] ∧
        (bids.foldl (occStep s val) acc).2.1 ≠ [] ∧
        (bids.foldl (occStep s val) acc).2.2 ≠ 0))
  | [], acc, h => h
  | p :: ps, acc, h => by
    rw [List.foldl_cons]
    apply occStep_foldl_shape s val ps
    unfold occStep
    by_cases hm : val ∈ (s.get_tile p.1 p.2).possible
    · rw [if_pos hm]
      right
      refine ⟨?_, ?_, by simp⟩
      · by_cases h1 : p.1 ∈ acc.1
        · rw [if_pos h1]
          intro hc
          rw [hc] at h1
          exact absurd h1 (by simp)
        · rw [if_neg h1]
          simp
      · by_cases h2 : p.2 ∈ acc.2.1
        · rw [if_pos h2]
          intro hc
          rw [hc] at h2
          exact absurd h2 (by simp)
        · rw [if_neg h2]
          simp
    · rw [if_neg hm]
      exact h

theorem collectOcc_nonempty (s : SudokuSolver) (bids : List (Nat × Nat)) (val : Nat)
    (h : occCount s bids val ≠ 0) :
    (collectOcc s bids val).1 ≠ [] ∧ (collectOcc s bids val).2.1 ≠ [] := by
  have := occStep_foldl_shape s val bids ([], [], 0) (Or.inl ⟨rfl, rfl, rfl⟩)
  rw [← collectOcc_eq_foldl] at this
  rcases this with ⟨-, -, hc⟩ | ⟨h1, h2, -⟩
  · exact absurd hc h
  · exact ⟨h1, h2⟩

theorem occStep_foldl_rows_mem (s : SudokuSolver) (val : Nat) :
    ∀ (bids : List (Nat × Nat)) (acc : List Nat × List Nat × Nat) (x : Nat),
    x ∈ (bids.foldl (occStep s val) acc).1 →
    x ∈ acc.1 ∨ ∃ p ∈ bids, p.1 = x
  | [], acc, x, hx => Or.inl hx
  | p :: ps, acc, x, hx => by
    rw [List.foldl_cons] at hx
    rcases occStep_foldl_rows_mem s val ps (occStep s val acc p) x hx with h | ⟨q, hq, hqx⟩
    · unfold occStep at h
      by_cases hm : val ∈ (s.get_tile p.1 p.2).possible
      · rw [if_pos hm] at h
        simp only at h
        by_cases h1 : p.1 ∈ acc.1
        · rw [if_pos h1] at h
          exact Or.inl h
        · rw [if_neg h1] at h
          rcases List.mem_append.mp h with h | h
          · exact Or.inl h
          · simp at h
            exact Or.inr ⟨p, by simp, h.symm⟩
      · rw [if_neg hm] at h
        exact Or.inl h
    · exact Or.inr ⟨q, by simp [hq], hqx⟩

theorem occStep_foldl_cols_mem (s : SudokuSolver) (val : Nat) :
    ∀ (bids : List (Nat × Nat)) (acc : List Nat × List Nat × Nat) (x : Nat),
    x ∈ (bids.foldl (occStep s val) acc).2.1 →
    x ∈ acc.2.1 ∨ ∃ p ∈ bids, p.2 = x
  | [], acc, x, hx => Or.inl hx
  | p :: ps, acc, x, hx => by
    rw [List.foldl_cons] at hx
    rcases occStep_foldl_cols_mem s val ps (occStep s val acc p) x hx with h | ⟨q, hq, hqx⟩
    · unfold occStep at h
      by_cases hm : val ∈ (s.get_tile p.1 p.2).possible
      · rw [if_pos hm] at h
        simp only at h
        by_cases h2 : p.2 ∈ acc.2.1
        · rw [if_pos h2] at h
          exact Or.inl h
        · rw [if_neg h2] at h
          rcases List.mem_append.mp h with h | h
          · exact Or.inl h
          · simp at h
            exact Or.inr ⟨p, by simp, h.symm⟩
      · rw [if_neg hm] at h
        exact Or.inl h
    · exact Or.inr ⟨q, by simp [hq], hqx⟩

theorem lonesomeStep_foldl_mem (s : SudokuSolver) (a val : Nat) :
    ∀ (l : List Nat) (acc : List Nat × List Nat) (x : Nat),
    ((x ∈ (l.foldl (lonesomeStep s a val) acc).1 → x ∈ acc.1 ∨ x ∈ l) ∧
     (x ∈ (l.foldl (lonesomeStep s a val) acc).2 → x ∈ acc.2 ∨ x ∈ l))
  | [], acc, x => ⟨fun h => Or.inl h, fun h => Or.inl h⟩
  | b :: bs, acc, x => by
    constructor
    · intro hx
      rw [List.foldl_cons] at hx
      rcases (lonesomeStep_foldl_mem s a val bs (lonesomeStep s a val acc b) x).1 hx with
        h | h
      · unfold lonesomeStep at h
        simp only at h
        by_cases hm : val ∈ (s.get_tile b a).possible
        · rw [if_pos hm] at h
          rcases List.mem_append.mp h with h | h
          · exact Or.inl h
          · simp at h
            exact Or.inr (by simp [h])
        · rw [if_neg hm] at h
          exact Or.inl h
      · exact Or.inr (by simp [h])
    · intro hx
      rw [List.foldl_cons] at hx
      rcases (lonesomeStep_foldl_mem s a val bs (lonesomeStep s a val acc b) x).2 hx with
        h | h
      · unfold lonesomeStep at h
        simp only at h
        by_cases hm : val ∈ (s.get_tile a b).possible
        · rw [if_pos hm] at h
          rcases List.mem_append.mp h with h | h
          · exact Or.inl h
          · simp at h
            exact Or.inr (by simp [h])
        · rw [if_neg hm] at h
          exact Or.inl h
      · exact Or.inr (by simp [h])

theorem SudokuTile.set_self (t : SudokuTile) (v : Nat) (h1 : v = t.value)
    (h2 : t.possible = [v]) : (t.set v).1 = t := by
  unfold SudokuTile.set
  rw [if_pos h1]
  show { t with possible := [v] } = t
  rw [← h2]

namespace SudokuSolver

theorem commit_noop (s : SudokuSolver) (r c v : Nat)
    (hval : (s.get_tile r c).value = v) (hv0 : v ≠ 0)
    (hposs : (s.get_tile r c).possible = [v])
    (hpeer : ∀ q ∈ s.commitVisits r c,
      v ∉ (s.get_tile q.1 q.2).possible ∧ v ≠ (s.get_tile q.1 q.2).value) :
    s.commit r c v = .ok (s, 0) := by
  rw [s.commit_eq r c v hv0]
  rw [SudokuTile.set_self _ v hval.symm hposs]
  rw [s.set_tile_get_self r c]
  exact removeMany_noop v (s.commitVisits r c) s 0
    (fun q hq => ⟨(hpeer q hq).2, (hpeer q hq).1⟩)

end SudokuSolver

theorem pass1Body_noop (s : SudokuSolver) (hs : s.SInv) (hnp : NoPeerHasValue s)
    (n : Nat) (p : Nat × Nat) (hp : p ∈ allIndices s.N) :
    pass1Body (s, n) p = .ok (s, n) := by
  have hb := (mem_allIndices s.N p).mp hp
  have hres := s.resolve_noop_of_SInv hs p.1 p.2 hb.1 hb.2
  unfold pass1Body
  simp only
  rw [hres]
  simp only
  rw [s.set_tile_get_self p.1 p.2]
  by_cases hv : (s.get_tile p.1 p.2).value ≠ EMPTY
  · rw [if_pos hv]
    rw [EMPTY_def] at hv
    have hinv := (hs.2.2 p hp).1
    have hposs : (s.get_tile p.1 p.2).possible = [(s.get_tile p.1 p.2).value] :=
      hinv.2.2.2.1.mp hv
    rw [s.commit_noop p.1 p.2 (s.get_tile p.1 p.2).value rfl hv hposs
      (fun q hq => hnp p hp hv q hq)]
    show Except.ok (s, n + 0) = Except.ok (s, n)
    rw [Nat.add_zero]
  · rw [if_neg hv]

theorem reduceRowBody_noop (s : SudokuSolver) (bids : List (Nat × Nat)) (val r n : Nat)
    (h : ∀ cc ∈ List.range (s.N * s.N), (r, cc) ∉ bids →
      val ∉ (s.get_tile r cc).possible ∧ val ≠ (s.get_tile r cc).value)
    (cc : Nat) (hcc : cc ∈ List.range (s.N * s.N)) :
    reduceRowBody bids val r (s, 0, n) cc = .ok (s, 0, n) := by
  unfold reduceRowBody reduceStep
  simp only
  by_cases hin : (r, cc) ∈ bids
  · rw [if_pos hin]
    simp
  · rw [if_neg hin]
    rw [s.remove_possible_noop r cc val (h cc hcc hin).2 (h cc hcc hin).1]
    simp

theorem reduceColBody_noop (s : SudokuSolver) (bids : List (Nat × Nat)) (val c n : Nat)
    (h : ∀ rr ∈ List.range (s.N * s.N), (rr, c) ∉ bids →
      val ∉ (s.get_tile rr c).possible ∧ val ≠ (s.get_tile rr c).value)
    (rr : Nat) (hrr : rr ∈ List.range (s.N * s.N)) :
    reduceColBody bids val c (s, 0, n) rr = .ok (s, 0, n) := by
  unfold reduceColBody reduceStep
  simp only
  by_cases hin : (rr, c) ∈ bids
  · rw [if_pos hin]
    simp
  · rw [if_neg hin]
    rw [s.remove_possible_noop rr c val (h rr hrr hin).2 (h rr hrr hin).1]
    simp

theorem boxValBody_noop (s : SudokuSolver) (hs : s.SInv) (bids : List (Nat × Nat))
    (hbids : ∀ p ∈ bids, p.1 < s.N * s.N ∧ p.2 < s.N * s.N)
    (val : Nat) (hset : OccSettled s bids val) (n : Nat) :
    boxValBody bids (s, n) val = .ok (s, n) := by
  obtain ⟨hc0, hc1, hrow, hcol⟩ := hset
  have hne := collectOcc_nonempty s bids val hc0
  unfold boxValBody
  simp only
  split
  · rename_i r rows1 c cols1 heq1 heq2
    have hrmem : r ∈ (collectOcc s bids val).1 := by rw [heq1]; simp
    have hcmem : c ∈ (collectOcc s bids val).2.1 := by rw [heq2]; simp
    have hrlt : r < s.N * s.N := by
      rw [collectOcc_eq_foldl] at hrmem
      rcases occStep_foldl_rows_mem s val bids ([], [], 0) r hrmem with h | ⟨p, hp, hpr⟩
      · exact absurd h (by simp)
      · rw [← hpr]
        exact (hbids p hp).1
    have hclt : c < s.N * s.N := by
      rw [collectOcc_eq_foldl] at hcmem
      rcases occStep_foldl_cols_mem s val bids ([], [], 0) c hcmem with h | ⟨p, hp, hpc⟩
      · exact absurd h (by simp)
      · rw [← hpc]
        exact (hbids p hp).2
    have hheadr : (occRows s bids val).headD 0 = r := by
      unfold occRows
      rw [heq1]
      rfl
    have hheadc : (occCols s bids val).headD 0 = c := by
      unfold occCols
      rw [heq2]
      rfl
    by_cases h1 : (collectOcc s bids val).2.2 = 1
    · rw [if_pos h1]
      have hres := s.resolve_noop_of_SInv hs r c hrlt hclt
      rw [hres]
      simp only
      rw [s.set_tile_get_self r c]
      have hv : (s.get_tile r c).value ≠ 0 := by
        have := hc1 (by unfold occCount; exact h1)
        rw [hheadr, hheadc] at this
        exact this
      rw [if_neg (by rw [EMPTY_def]; exact hv)]
    · rw [if_neg h1]
      by_cases h2 : (r :: rows1).length = 1
      · rw [if_pos h2]
        have hrowcond := hrow (by unfold occCount; exact h1)
          (by unfold occRows; rw [heq1]; exact h2)
        rw [hheadr] at hrowcond
        rw [foldME_id (reduceRowBody bids val r) (List.range (s.N * s.N)) (s, 0, n)
          (fun cc hcc => reduceRowBody_noop s bids val r n
            (fun c2 hc2 hnb => hrowcond c2 hc2 hnb) cc hcc)]
      · rw [if_neg h2]
        by_cases h3 : (c :: cols1).length = 1
        · rw [if_pos h3]
          have hcolcond := hcol (by unfold occCount; exact h1)
            (by unfold occRows; rw [heq1]; exact h2)
            (by unfold occCols; rw [heq2]; exact h3)
          rw [hheadc] at hcolcond
          rw [foldME_id (reduceColBody bids val c) (List.range (s.N * s.N)) (s, 0, n)
            (fun rr hrr => reduceColBody_noop s bids val c n
              (fun r2 hr2 hnb => hcolcond r2 hr2 hnb) rr hrr)]
        · rw [if_neg h3]
  · rename_i hcontra
    obtain ⟨r, rows1, hrows⟩ := List.exists_cons_of_ne_nil hne.1
    obtain ⟨c, cols1, hcols⟩ := List.exists_cons_of_ne_nil hne.2
    exact (hcontra r rows1 c cols1 hrows hcols).elim

theorem mem_boxList (N : Nat) (b : Nat × Nat) :
    b ∈ boxList N ↔ b.1 < N ∧ b.2 < N := by
  simp only [boxList, List.mem_flatMap, List.mem_map, List.mem_range]
  constructor
  · rintro ⟨x, hx, y, hy, rfl⟩
    exact ⟨hx, hy⟩
  · intro ⟨h1, h2⟩
    exact ⟨b.1, h1, b.2, h2, rfl⟩

theorem boxBody_noop (s : SudokuSolver) (hs : s.SInv) (hbox : BoxScanSettled s)
    (n : Nat) (b : Nat × Nat) (hb : b ∈ boxList s.N) :
    boxBody (s, n) b = .ok (s, n) := by
  unfold boxBody
  simp only
  apply foldME_id
  intro val hval
  have hblt := (mem_boxList s.N b).mp hb
  have hN1 : 1 ≤ s.N := le_trans (by omega) hs.1
  have hb1 : b.1 * s.N < s.N * s.N := by
    have : b.1 + 1 ≤ s.N := hblt.1
    calc b.1 * s.N < (b.1 + 1) * s.N := by
          have : 0 < s.N := by omega
          nlinarith
    _ ≤ s.N * s.N := Nat.mul_le_mul_right _ hblt.1
  have hb2 : b.2 * s.N < s.N * s.N := by
    calc b.2 * s.N < (b.2 + 1) * s.N := by
          have : 0 < s.N := by omega
          nlinarith
    _ ≤ s.N * s.N := Nat.mul_le_mul_right _ hblt.2
  exact boxValBody_noop s hs _
    (fun p hp => s.box_indices_bounds (b.1 * s.N) (b.2 * s.N) hb1 hb2 p hp)
    val (hbox b hb val hval) n

theorem lonesomeBody_noop (s : SudokuSolver) (hs : s.SInv) (hlone : LonesomeSettled s)
    (n : Nat) (a : Nat) (ha : a ∈ List.range (s.N * s.N)) (d : Nat) :
    lonesomeBody (s.N * s.N) a (s, n) d = .ok (s, n) := by
  have halt := List.mem_range.mp ha
  obtain ⟨hc, hr⟩ := hlone a ha
  have hcolmem : ∀ x ∈ (lonesome s a (s.N * s.N)).2, x < s.N * s.N := by
    intro x hx
    rw [lonesome_eq_foldl] at hx
    rcases (lonesomeStep_foldl_mem s a (s.N * s.N) (List.range (s.N * s.N)) ([], []) x).2
      hx with h | h
    · exact absurd h (by simp)
    · exact List.mem_range.mp h
  have hrowmem : ∀ x ∈ (lonesome s a (s.N * s.N)).1, x < s.N * s.N := by
    intro x hx
    rw [lonesome_eq_foldl] at hx
    rcases (lonesomeStep_foldl_mem s a (s.N * s.N) (List.range (s.N * s.N)) ([], []) x).1
      hx with h | h
    · exact absurd h (by simp)
    · exact List.mem_range.mp h
  unfold lonesomeBody
  simp only
  have hAC : (if (lonesome s a (s.N * s.N)).2.length = 1 then
      (if (((s.get_tile a ((lonesome s a (s.N * s.N)).2.headD 0)).resolve).2 = EMPTY) then
        (match (s.set_tile a ((lonesome s a (s.N * s.N)).2.headD 0)
            ((s.get_tile a ((lonesome s a (s.N * s.N)).2.headD 0)).resolve).1).commit a
            ((lonesome s a (s.N * s.N)).2.headD 0) (s.N * s.N) with
        | Except.error e => Except.error e
        | Except.ok (s2, m) => Except.ok (s2, n + m))
      else Except.ok (s.set_tile a ((lonesome s a (s.N * s.N)).2.headD 0)
        ((s.get_tile a ((lonesome s a (s.N * s.N)).2.headD 0)).resolve).1, n))
    else Except.ok (s, n)) = Except.ok (s, n) := by
    by_cases h1 : (lonesome s a (s.N * s.N)).2.length = 1
    · rw [if_pos h1]
      have hcol0 : (lonesome s a (s.N * s.N)).2.headD 0 < s.N * s.N := by
        apply hcolmem
        match hl : (lonesome s a (s.N * s.N)).2 with
        | [x] => simp
        | [] => rw [hl] at h1; simp at h1
        | x :: y :: r => rw [hl] at h1; simp at h1
      have hres := s.resolve_noop_of_SInv hs a _ halt hcol0
      rw [hres]
      simp only
      rw [s.set_tile_get_self]
      rw [if_neg (by rw [EMPTY_def]; exact hc h1)]
    · rw [if_neg h1]
  rw [hAC]
  simp only
  by_cases h2 : (lonesome s a (s.N * s.N)).1.length = 1
  · rw [if_pos h2]
    have hrow0 : (lonesome s a (s.N * s.N)).1.headD 0 < s.N * s.N := by
      apply hrowmem
      match hl : (lonesome s a (s.N * s.N)).1 with
      | [x] => simp
      | [] => rw [hl] at h2; simp at h2
      | x :: y :: r => rw [hl] at h2; simp at h2
    have hres := s.resolve_noop_of_SInv hs _ a hrow0 halt
    rw [hres]
    simp only
    rw [s.set_tile_get_self]
    rw [if_neg (by rw [EMPTY_def]; exact hr h2)]
  · rw [if_neg h2]

/-- C6: on a fixed point (an invariant-satisfying state on which no
elimination or placement rule of the sweep makes progress), a
propagateOnce sweep returns elimination count 0 and leaves every tile
unchanged. -/
theorem claim_C6_fixed_point (s : SudokuSolver) (h : FixedPoint s) :
    s.refresh_possible = .ok (s, 0) := by
  obtain ⟨hs, hnp, hbox, hlone⟩ := h
  unfold SudokuSolver.refresh_possible
  rw [foldME_id pass1Body (allIndices s.N) (s, 0)
    (fun p hp => pass1Body_noop s hs hnp 0 p hp)]
  show (match foldME boxBody (s, 0) (boxList s.N) with
    | Except.error e => Except.error e
    | Except.ok st2 =>
      foldME (fun st a => foldME (lonesomeBody (s.N * s.N) a) st
        (List.range' 1 (s.N * s.N))) st2 (List.range (s.N * s.N))) = Except.ok (s, 0)
  rw [foldME_id boxBody (boxList s.N) (s, 0)
    (fun b hb => boxBody_noop s hs hbox 0 b hb)]
  show foldME (fun st a => foldME (lonesomeBody (s.N * s.N) a) st
    (List.range' 1 (s.N * s.N))) (s, 0) (List.range (s.N * s.N)) = Except.ok (s, 0)
  apply foldME_id
  intro a ha
  apply foldME_id
  intro d _
  exact lonesomeBody_noop s hs hlone 0 a ha d

/-- C6 witness: the solved 4x4 grid is a fixed point and the sweep
returns it unchanged with count 0. -/
theorem claim_C6_fixed_point_witness :
    FixedPoint solvedGrid ∧ solvedGrid.refresh_possible = .ok (solvedGrid, 0) :=
  ⟨by decide, claim_C6_fixed_point solvedGrid (by decide)⟩

theorem solve_count_eq_foldl (s : SudokuSolver) :
    s.solve_count = (allIndices s.N).foldl solveCountStep (s, 0) := rfl

theorem Rprog_refl (st : SudokuSolver × Nat) : Rprog st st := by
  intro h
  exact ⟨h, rfl, fun r c _ => rfl, le_refl _, le_refl _, by omega⟩

theorem Rprog_trans (a b c : SudokuSolver × Nat) (h1 : Rprog a b) (h2 : Rprog b c) :
    Rprog a c := by
  intro ha
  obtain ⟨hb, hbN, hbmono, hbT, hbn, hbstrict⟩ := h1 ha
  obtain ⟨hc, hcN, hcmono, hcT, hcn, hcstrict⟩ := h2 hb
  refine ⟨hc, by rw [hcN, hbN], ?_, le_trans hcT hbT, le_trans hbn hcn, ?_⟩
  · intro r c hv
    rw [hcmono r c (by rw [hbmono r c hv]; exact hv), hbmono r c hv]
  · intro hlt
    rcases Nat.lt_or_ge a.2 b.2 with h | h
    · exact lt_of_le_of_lt hcT (hbstrict h)
    · have : b.2 < c.2 := by omega
      exact lt_of_lt_of_le (hcstrict this) hbT

theorem foldME_rel {σ α : Type} (R : σ → σ → Prop)
    (htrans : ∀ a b c, R a b → R b c → R a c) (hrefl : ∀ a, R a a)
    (body : σ → α → Except SolveErr σ) :
    ∀ (L : List α) (st st2 : σ),
    (∀ (x : σ) (a : α) (x2 : σ), a ∈ L → body x a = .ok x2 → R x x2) →
    foldME body st L = .ok st2 → R st st2
  | [], st, st2, _, hok => by
    have h0 : (Except.ok st : Except SolveErr σ) = Except.ok st2 := hok
    injection h0 with h1
    rw [← h1]
    exact hrefl st
  | a :: as, st, st2, hbody, hok => by
    have hok2 : (match body st a with
      | Except.error e => Except.error e
      | Except.ok st1 => foldME body st1 as) = Except.ok st2 := hok
    match hb : body st a with
    | .error e =>
      rw [hb] at hok2
      exact absurd hok2 (by simp)
    | .ok st1 =>
      rw [hb] at hok2
      have h1 : R st st1 := hbody st a st1 (by simp) hb
      have h2 : R st1 st2 := foldME_rel R htrans hrefl body as st1 st2
        (fun x y x2 hy hx => hbody x y x2 (by simp [hy]) hx) hok2
      exact htrans _ _ _ h1 h2

theorem sum_map_update {α : Type} [DecidableEq α] : ∀ (l : List α), l.Nodup →
    ∀ (q : α), q ∈ l → ∀ (f g : α → Nat), (∀ x ∈ l, x ≠ q → f x = g x) →
    (l.map f).sum + g q = (l.map g).sum + f q
  | [], _, q, hq, _, _, _ => absurd hq (by simp)
  | a :: as, hnd, q, hq, f, g, hfg => by
    rw [List.map_cons, List.map_cons, List.sum_cons, List.sum_cons]
    by_cases haq : a = q
    · subst haq
      have hnotin : a ∉ as := (List.nodup_cons.mp hnd).1
      have heq : (as.map f).sum = (as.map g).sum := by
        congr 1
        apply List.map_congr_left
        intro x hx
        exact hfg x (by simp [hx]) (fun hc => hnotin (hc ▸ hx))
      omega
    · have hqas : q ∈ as := by
        rcases List.mem_cons.mp hq with h | h
        · exact absurd h.symm haq
        · exact h
      have ih := sum_map_update as (List.nodup_cons.mp hnd).2 q hqas f g
        (fun x hx hxq => hfg x (by simp [hx]) hxq)
      have ha : f a = g a := hfg a (by simp) haq
      omega

theorem totalCand_set_tile (s : SudokuSolver) (hwf : s.WF) (r c : Nat)
    (hr : r < s.N * s.N) (hc : c < s.N * s.N) (t : SudokuTile) :
    totalCand (s.set_tile r c t) + (s.get_tile r c).possible.length =
      totalCand s + t.possible.length := by
  have hmem : ((r, c) : Nat × Nat) ∈ allIndices s.N :=
    (mem_allIndices s.N (r, c)).mpr ⟨hr, hc⟩
  have hupd := sum_map_update (allIndices s.N) (allIndices_nodup s.N) (r, c) hmem
    (fun p => ((s.set_tile r c t).get_tile p.1 p.2).possible.length)
    (fun p => (s.get_tile p.1 p.2).possible.length)
    (by
      intro x hx hxq
      simp only
      rw [s.get_tile_set_ne r c x.1 x.2 t (by
        intro hcon
        exact hxq (Prod.ext (congrArg Prod.fst hcon) (congrArg Prod.snd hcon)))])
  have hself : (s.set_tile r c t).get_tile r c = t := s.get_tile_set_self_wf r c t hwf hr hc
  show ((allIndices (s.set_tile r c t).N).map
    (fun p => ((s.set_tile r c t).get_tile p.1 p.2).possible.length)).sum +
      (s.get_tile r c).possible.length =
    ((allIndices s.N).map (fun p => (s.get_tile p.1 p.2).possible.length)).sum +
      t.possible.length
  rw [s.set_tile_N r c t]
  have h2 : ((allIndices s.N).map
      (fun p => ((s.set_tile r c t).get_tile p.1 p.2).possible.length)).sum +
      (s.get_tile r c).possible.length =
      ((allIndices s.N).map (fun p => (s.get_tile p.1 p.2).possible.length)).sum +
      ((s.set_tile r c t).get_tile r c).possible.length := hupd
  rw [hself] at h2
  exact h2

theorem SInv_set_tile (s : SudokuSolver) (hs : s.SInv) (r c : Nat) (t : SudokuTile)
    (ht : t.Inv) (hhpv : t.hpv = s.N * s.N) : (s.set_tile r c t).SInv := by
  refine ⟨hs.1, s.WF_set_tile r c t hs.2.1, ?_⟩
  intro p hp
  have hp2 : p ∈ allIndices s.N := hp
  have hb := (mem_allIndices s.N p).mp hp2
  by_cases hpq : p = (r, c)
  · rw [hpq] at hb
    have hget : (s.set_tile r c t).get_tile p.1 p.2 = t := by
      rw [hpq]
      exact s.get_tile_set_self_wf r c t hs.2.1 hb.1 hb.2
    rw [hget]
    exact ⟨ht, hhpv⟩
  · have hget : (s.set_tile r c t).get_tile p.1 p.2 = s.get_tile p.1 p.2 :=
      s.get_tile_set_ne r c p.1 p.2 t (by
        intro hcon
        exact hpq (Prod.ext (congrArg Prod.fst hcon) (congrArg Prod.snd hcon)))
    rw [hget]
    exact hs.2.2 p hp2

theorem remove_possible_step (s : SudokuSolver) (hs : s.SInv) (r c v : Nat)
    (hr : r < s.N * s.N) (hc : c < s.N * s.N) (s2 : SudokuSolver) (b : Bool)
    (hok : s.remove_possible r c v = .ok (s2, b)) :
    s2.SInv ∧ s2.N = s.N ∧
    (∀ r2 c2 : Nat, (s.get_tile r2 c2).value ≠ 0 →
      (s2.get_tile r2 c2).value = (s.get_tile r2 c2).value) ∧
    (b = true → totalCand s2 + 1 = totalCand s) ∧ (b = false → s2 = s) := by
  by_cases hv : v = (s.get_tile r c).value
  · rw [s.remove_possible_err r c v hv] at hok
    exact absurd hok (by simp)
  · rw [s.remove_possible_ok r c v hv] at hok
    have hpair : (s.set_tile r c ((s.get_tile r c).remove_possible v).1,
        decide (v ∈ (s.get_tile r c).possible)) = (s2, b) := by
      injection hok with h1
    have hs2 : s2 = s.set_tile r c ((s.get_tile r c).remove_possible v).1 :=
      (congrArg Prod.fst hpair).symm
    have hbv : b = decide (v ∈ (s.get_tile r c).possible) :=
      (congrArg Prod.snd hpair).symm
    have hinv : (s.get_tile r c).Inv :=
      (hs.2.2 (r, c) ((mem_allIndices s.N (r, c)).mpr ⟨hr, hc⟩)).1
    have hhpv : (s.get_tile r c).hpv = s.N * s.N :=
      (hs.2.2 (r, c) ((mem_allIndices s.N (r, c)).mpr ⟨hr, hc⟩)).2
    have hmono : ∀ r2 c2 : Nat, (s.get_tile r2 c2).value ≠ 0 →
        (s2.get_tile r2 c2).value = (s.get_tile r2 c2).value := by
      intro r2 c2 hval
      by_cases hq : (r2, c2) = ((r, c) : Nat × Nat)
      · have hr2 : r2 = r := congrArg Prod.fst hq
        have hc2 : c2 = c := congrArg Prod.snd hq
        subst hr2 hc2
        rw [hs2, s.get_tile_set_self_wf r2 c2 _ hs.2.1 hr hc]
        exact SudokuTile.remove_fst_value_of_ne _ v hval
      · rw [hs2, s.get_tile_set_ne r c r2 c2 _ hq]
    refine ⟨?_, by rw [hs2]; rfl, hmono, ?_, ?_⟩
    · rw [hs2]
      exact SInv_set_tile s hs r c _
        (SudokuTile.inv_remove _ v hinv)
        (by rw [SudokuTile.remove_fst_hpv]; exact hhpv)
    · intro hb
      rw [hbv] at hb
      have hm : v ∈ (s.get_tile r c).possible := by
        by_contra hm
        rw [decide_eq_true_iff] at hb
        exact hm hb
      have hlen : (((s.get_tile r c).remove_possible v).1).possible.length =
          (s.get_tile r c).possible.length - 1 := by
        rw [SudokuTile.remove_fst_possible _ v hv]
        exact List.length_erase_of_mem hm
      have hlen1 : 1 ≤ (s.get_tile r c).possible.length :=
        List.length_pos.mpr (fun hc0 => by rw [hc0] at hm; exact absurd hm (by simp))
      have htc := totalCand_set_tile s hs.2.1 r c hr hc
        (((s.get_tile r c).remove_possible v).1)
      rw [hs2]
      omega
    · intro hb
      rw [hbv] at hb
      have hm : v ∉ (s.get_tile r c).possible := by
        intro hm
        rw [decide_eq_false_iff_not] at hb
        exact hb hm
      rw [hs2, SudokuTile.remove_of_absent _ v hv hm, s.set_tile_get_self]

theorem removeMany_Rtotal (v : Nat) :
    ∀ (L : List (Nat × Nat)) (s s2 : SudokuSolver) (n n2 : Nat),
    s.SInv → (∀ p ∈ L, p.1 < s.N * s.N ∧ p.2 < s.N * s.N) →
    removeMany v s L n = .ok (s2, n2) →
    s2.SInv ∧ s2.N = s.N ∧
    (∀ r2 c2 : Nat, (s.get_tile r2 c2).value ≠ 0 →
      (s2.get_tile r2 c2).value = (s.get_tile r2 c2).value) ∧
    n ≤ n2 ∧ totalCand s2 + (n2 - n) ≤ totalCand s
  | [], s, s2, n, n2, hs, _, hok => by
    have h0 : (Except.ok (s, n) : Except SolveErr (SudokuSolver × Nat)) =
        Except.ok (s2, n2) := hok
    injection h0 with h1
    have hss : s = s2 := congrArg Prod.fst h1
    have hnn : n = n2 := congrArg Prod.snd h1
    subst hss hnn
    exact ⟨hs, rfl, fun _ _ _ => rfl, le_refl _, by omega⟩
  | p :: ps, s, s2, n, n2, hs, hbnd, hok => by
    have hok2 : (match s.remove_possible p.1 p.2 v with
      | Except.error e => Except.error e
      | Except.ok (s1, b) => removeMany v s1 ps (n + if b then 1 else 0)) =
        Except.ok (s2, n2) := hok
    match hrm : s.remove_possible p.1 p.2 v with
    | .error e =>
      rw [hrm] at hok2
      exact absurd hok2 (by simp)
    | .ok (s1, b) =>
      rw [hrm] at hok2
      have hpb := hbnd p (by simp)
      have hstep := remove_possible_step s hs p.1 p.2 v hpb.1 hpb.2 s1 b hrm
      obtain ⟨hs1, hN1, hmono1, htrue, hfalse⟩ := hstep
      have ih := removeMany_Rtotal v ps s1 s2 (n + if b then 1 else 0) n2 hs1
        (by
          intro q hq
          rw [hN1]
          exact hbnd q (by simp [hq]))
        hok2
      obtain ⟨ihS, ihN, ihmono, ihn, ihT⟩ := ih
      refine ⟨ihS, by rw [ihN, hN1], ?_, ?_, ?_⟩
      · intro r2 c2 hval
        rw [ihmono r2 c2 (by rw [hmono1 r2 c2 hval]; exact hval), hmono1 r2 c2 hval]
      · cases b
        · simp at ihn
          omega
        · simp at ihn
          omega
      · cases b
        · have hseq := hfalse rfl
          subst hseq
          simp at ihT ihn
          omega
        · have hT1 := htrue rfl
          simp at ihT ihn
          omega

theorem commit_step (s : SudokuSolver) (hs : s.SInv) (r c v : Nat)
    (hr : r < s.N * s.N) (hc : c < s.N * s.N) (hv1 : 1 ≤ v) (hv2 : v ≤ s.N * s.N)
    (htv : (s.get_tile r c).value = 0 ∨ (s.get_tile r c).value = v)
    (s2 : SudokuSolver) (m : Nat) (hok : s.commit r c v = .ok (s2, m)) :
    s2.SInv ∧ s2.N = s.N ∧
    (∀ r2 c2 : Nat, (s.get_tile r2 c2).value ≠ 0 →
      (s2.get_tile r2 c2).value = (s.get_tile r2 c2).value) ∧
    totalCand s2 + m ≤ totalCand s := by
  rw [s.commit_eq r c v (by omega)] at hok
  have hinv : (s.get_tile r c).Inv :=
    (hs.2.2 (r, c) ((mem_allIndices s.N (r, c)).mpr ⟨hr, hc⟩)).1
  have hhpv : (s.get_tile r c).hpv = s.N * s.N :=
    (hs.2.2 (r, c) ((mem_allIndices s.N (r, c)).mpr ⟨hr, hc⟩)).2
  have hs1 : (s.set_tile r c ((s.get_tile r c).set v).1).SInv :=
    SInv_set_tile s hs r c _
      (SudokuTile.inv_set _ v ⟨hv1, by rw [hhpv]; exact hv2⟩ hinv)
      (by rw [SudokuTile.set_fst_hpv]; exact hhpv)
  have hN1 : (s.set_tile r c ((s.get_tile r c).set v).1).N = s.N := rfl
  have hget1self : (s.set_tile r c ((s.get_tile r c).set v).1).get_tile r c =
      ((s.get_tile r c).set v).1 :=
    s.get_tile_set_self_wf r c _ hs.2.1 hr hc
  have hmono1 : ∀ r2 c2 : Nat, (s.get_tile r2 c2).value ≠ 0 →
      ((s.set_tile r c ((s.get_tile r c).set v).1).get_tile r2 c2).value =
      (s.get_tile r2 c2).value := by
    intro r2 c2 hval
    by_cases hq : ((r2, c2) : Nat × Nat) = (r, c)
    · have hr2 : r2 = r := congrArg Prod.fst hq
      have hc2 : c2 = c := congrArg Prod.snd hq
      subst hr2 hc2
      rw [hget1self, SudokuTile.set_fst_value]
      rcases htv with h0 | heq
      · exact absurd h0 hval
      · exact heq.symm
    · rw [s.get_tile_set_ne r c r2 c2 _ hq]
  have hlen1 : 1 ≤ (s.get_tile r c).possible.length := by
    by_cases h0 : (s.get_tile r c).value = 0
    · have := hinv.2.2.2.2 h0
      omega
    · have := hinv.2.2.2.1.mp h0
      rw [this]
      simp
  have htc1 : totalCand (s.set_tile r c ((s.get_tile r c).set v).1) ≤ totalCand s := by
    have := totalCand_set_tile s hs.2.1 r c hr hc ((s.get_tile r c).set v).1
    rw [SudokuTile.set_fst_possible] at this
    simp at this
    omega
  have hrm := removeMany_Rtotal v (s.commitVisits r c)
    (s.set_tile r c ((s.get_tile r c).set v).1) s2 0 m hs1
    (by
      intro q hq
      rw [hN1]
      exact s.commitVisits_bounds r c hr hc q hq)
    hok
  obtain ⟨hS2, hN2, hmono2, _, hT2⟩ := hrm
  refine ⟨hS2, by rw [hN2, hN1], ?_, by omega⟩
  intro r2 c2 hval
  rw [hmono2 r2 c2 (by rw [hmono1 r2 c2 hval]; exact hval), hmono1 r2 c2 hval]

theorem RprogN_refl (N0 : Nat) (st : SudokuSolver × Nat) : RprogN N0 st st :=
  fun _ => Rprog_refl st

theorem RprogN_trans (N0 : Nat) (a b c : SudokuSolver × Nat)
    (h1 : RprogN N0 a b) (h2 : RprogN N0 b c) : RprogN N0 a c := by
  intro hN hSa
  have hab := h1 hN hSa
  have hbN : b.1.N = N0 := by rw [hab.2.1]; exact hN
  exact Rprog_trans a b c (fun _ => hab) (h2 hbN) hSa

theorem value_bounds_of_inv (t : SudokuTile) (h : t.Inv) (hv : t.value ≠ 0) :
    1 ≤ t.value ∧ t.value ≤ t.hpv := by
  have hposs := h.2.2.2.1.mp hv
  exact h.1 t.value (by rw [hposs]; simp)

theorem pass1Body_Rprog (N0 : Nat) (x : SudokuSolver × Nat) (p : Nat × Nat)
    (x2 : SudokuSolver × Nat) (hp : p ∈ allIndices N0)
    (hok : pass1Body x p = .ok x2) : RprogN N0 x x2 := by
  intro hN hS
  have hb : p.1 < x.1.N * x.1.N ∧ p.2 < x.1.N * x.1.N := by
    rw [hN]
    exact (mem_allIndices N0 p).mp hp
  have hres := x.1.resolve_noop_of_SInv hS p.1 p.2 hb.1 hb.2
  unfold pass1Body at hok
  rw [hres] at hok
  simp only at hok
  rw [x.1.set_tile_get_self p.1 p.2] at hok
  by_cases hv : (x.1.get_tile p.1 p.2).value ≠ EMPTY
  · rw [if_pos hv] at hok
    rw [EMPTY_def] at hv
    match hcm : x.1.commit p.1 p.2 (x.1.get_tile p.1 p.2).value with
    | .error e =>
      rw [hcm] at hok
      exact absurd hok (by simp)
    | .ok (s2, m) =>
      rw [hcm] at hok
      have hinj : (Except.ok (s2, x.2 + m) : Except SolveErr (SudokuSolver × Nat)) =
          Except.ok x2 := hok
      injection hinj with h1
      have hvb := value_bounds_of_inv _ (hS.2.2 p (by rw [hN]; exact hp)).1 hv
      have hhpv := (hS.2.2 p (by rw [hN]; exact hp)).2
      have hcs := commit_step x.1 hS p.1 p.2 (x.1.get_tile p.1 p.2).value hb.1 hb.2
        hvb.1 (by rw [← hhpv]; exact hvb.2) (Or.inr rfl) s2 m hcm
      obtain ⟨hS2, hN2, hmono2, hT2⟩ := hcs
      rw [← h1]
      refine ⟨hS2, hN2, hmono2, ?_, ?_, ?_⟩
      · show totalCand s2 ≤ totalCand x.1
        omega
      · show x.2 ≤ x.2 + m
        omega
      · show x.2 < x.2 + m → totalCand s2 < totalCand x.1
        intro hlt
        omega
  · rw [if_neg hv] at hok
    have hinj : (Except.ok (x.1, x.2) : Except SolveErr (SudokuSolver × Nat)) =
        Except.ok x2 := hok
    injection hinj with h1
    rw [← h1]
    exact Rprog_refl x hS

theorem Rred_refl (x : SudokuSolver × Nat × Nat) : Rred x x := by
  intro h
  exact ⟨h, rfl, fun r c _ => rfl, le_refl _, by omega, le_refl _, by omega⟩

theorem Rred_trans (a b c : SudokuSolver × Nat × Nat) (h1 : Rred a b) (h2 : Rred b c) :
    Rred a c := by
  intro ha
  obtain ⟨hb, hbN, hbmono, hbrem, hbT, hbn, hbpos⟩ := h1 ha
  obtain ⟨hc, hcN, hcmono, hcrem, hcT, hcn, hcpos⟩ := h2 hb
  refine ⟨hc, by rw [hcN, hbN], ?_, le_trans hbrem hcrem, by omega, le_trans hbn hcn, ?_⟩
  · intro r c2 hv
    rw [hcmono r c2 (by rw [hbmono r c2 hv]; exact hv), hbmono r c2 hv]
  · intro hlt
    rcases Nat.lt_or_ge a.2.2 b.2.2 with h | h
    · have := hbpos h
      omega
    · have hb2 : b.2.2 < c.2.2 := by omega
      exact hcpos hb2

theorem RredN_refl (N0 : Nat) (x : SudokuSolver × Nat × Nat) : RredN N0 x x :=
  fun _ => Rred_refl x

theorem RredN_trans (N0 : Nat) (a b c : SudokuSolver × Nat × Nat)
    (h1 : RredN N0 a b) (h2 : RredN N0 b c) : RredN N0 a c := by
  intro hN hSa
  have hab := h1 hN hSa
  have hbN : b.1.N = N0 := by rw [hab.2.1]; exact hN
  exact Rred_trans a b c (fun _ => hab) (h2 hbN) hSa

theorem reduceStep_prog (bids : List (Nat × Nat)) (val row col : Nat)
    (s : SudokuSolver) (hs : s.SInv) (hrow : row < s.N * s.N) (hcol : col < s.N * s.N)
    (rem : Nat) (s1 : SudokuSolver) (rem1 : Nat)
    (hok : reduceStep bids val row col s rem = .ok (s1, rem1)) :
    s1.SInv ∧ s1.N = s.N ∧
    (∀ r c : Nat, (s.get_tile r c).value ≠ 0 →
      (s1.get_tile r c).value = (s.get_tile r c).value) ∧
    rem ≤ rem1 ∧ totalCand s1 + (rem1 - rem) ≤ totalCand s := by
  unfold reduceStep at hok
  by_cases hin : (row, col) ∈ bids
  · rw [if_pos hin] at hok
    have hinj : (Except.ok (s, rem) : Except SolveErr (SudokuSolver × Nat)) =
        Except.ok (s1, rem1) := hok
    injection hinj with h1
    have hss : s = s1 := congrArg Prod.fst h1
    have hrr : rem = rem1 := congrArg Prod.snd h1
    subst hss hrr
    exact ⟨hs, rfl, fun _ _ _ => rfl, le_refl _, by omega⟩
  · rw [if_neg hin] at hok
    match hrm : s.remove_possible row col val with
    | .error e =>
      rw [hrm] at hok
      exact absurd hok (by simp)
    | .ok (s2, b) =>
      rw [hrm] at hok
      have hinj : (Except.ok (s2, rem + if b then 1 else 0) :
          Except SolveErr (SudokuSolver × Nat)) = Except.ok (s1, rem1) := hok
      injection hinj with h1
      have hss : s2 = s1 := congrArg Prod.fst h1
      have hrr : rem + (if b then 1 else 0) = rem1 := congrArg Prod.snd h1
      have hstep := remove_possible_step s hs row col val hrow hcol s2 b hrm
      obtain ⟨hS2, hN2, hmono2, htrue, hfalse⟩ := hstep
      subst hss
      refine ⟨hS2, hN2, hmono2, by omega, ?_⟩
      cases b
      · have hseq := hfalse rfl
        subst hseq
        simp at hrr
        omega
      · have hT := htrue rfl
        simp at hrr
        omega

theorem reduceRowBody_Rred (N0 : Nat) (bids : List (Nat × Nat)) (val row : Nat)
    (hrow : row < N0 * N0) (x : SudokuSolver × Nat × Nat) (col : Nat)
    (hcol : col < N0 * N0) (x2 : SudokuSolver × Nat × Nat)
    (hok : reduceRowBody bids val row x col = .ok x2) : RredN N0 x x2 := by
  intro hN hS
  unfold reduceRowBody at hok
  match hrs : reduceStep bids val row col x.1 x.2.1 with
  | .error e =>
    rw [hrs] at hok
    exact absurd hok (by simp)
  | .ok (s1, rem1) =>
    rw [hrs] at hok
    have hinj : (Except.ok (s1, rem1, if rem1 ≠ 0 then x.2.2 + rem1 else x.2.2) :
        Except SolveErr (SudokuSolver × Nat × Nat)) = Except.ok x2 := hok
    injection hinj with h1
    have hstep := reduceStep_prog bids val row col x.1 hS (by rw [hN]; exact hrow)
      (by rw [hN]; exact hcol) x.2.1 s1 rem1 hrs
    obtain ⟨hS1, hN1, hmono1, hrem1, hT1⟩ := hstep
    rw [← h1]
    refine ⟨hS1, hN1, hmono1, hrem1, hT1, ?_, ?_⟩
    · show x.2.2 ≤ if rem1 ≠ 0 then x.2.2 + rem1 else x.2.2
      split
      · omega
      · omega
    · show x.2.2 < (if rem1 ≠ 0 then x.2.2 + rem1 else x.2.2) → 0 < rem1
      split
      · intro h
        omega
      · intro h
        omega

theorem reduceColBody_Rred (N0 : Nat) (bids : List (Nat × Nat)) (val col : Nat)
    (hcol : col < N0 * N0) (x : SudokuSolver × Nat × Nat) (row : Nat)
    (hrow : row < N0 * N0) (x2 : SudokuSolver × Nat × Nat)
    (hok : reduceColBody bids val col x row = .ok x2) : RredN N0 x x2 := by
  intro hN hS
  unfold reduceColBody at hok
  match hrs : reduceStep bids val row col x.1 x.2.1 with
  | .error e =>
    rw [hrs] at hok
    exact absurd hok (by simp)
  | .ok (s1, rem1) =>
    rw [hrs] at hok
    have hinj : (Except.ok (s1, rem1, if rem1 ≠ 0 then x.2.2 + rem1 else x.2.2) :
        Except SolveErr (SudokuSolver × Nat × Nat)) = Except.ok x2 := hok
    injection hinj with h1
    have hstep := reduceStep_prog bids val row col x.1 hS (by rw [hN]; exact hrow)
      (by rw [hN]; exact hcol) x.2.1 s1 rem1 hrs
    obtain ⟨hS1, hN1, hmono1, hrem1, hT1⟩ := hstep
    rw [← h1]
    refine ⟨hS1, hN1, hmono1, hrem1, hT1, ?_, ?_⟩
    · show x.2.2 ≤ if rem1 ≠ 0 then x.2.2 + rem1 else x.2.2
      split
      · omega
      · omega
    · show x.2.2 < (if rem1 ≠ 0 then x.2.2 + rem1 else x.2.2) → 0 < rem1
      split
      · intro h
        omega
      · intro h
        omega

theorem reduceFold_row_prog (bids : List (Nat × Nat)) (val row : Nat)
    (s : SudokuSolver) (hs : s.SInv) (hrow : row < s.N * s.N)
    (n0 : Nat) (s1 : SudokuSolver) (rem1 n1 : Nat)
    (hok : foldME (reduceRowBody bids val row) (s, 0, n0) (List.range (s.N * s.N)) =
      .ok (s1, rem1, n1)) :
    s1.SInv ∧ s1.N = s.N ∧
    (∀ r c : Nat, (s.get_tile r c).value ≠ 0 →
      (s1.get_tile r c).value = (s.get_tile r c).value) ∧
    n0 ≤ n1 ∧ totalCand s1 ≤ totalCand s ∧
    (n0 < n1 → totalCand s1 < totalCand s) := by
  have hrel := foldME_rel (RredN s.N) (RredN_trans s.N) (RredN_refl s.N)
    (reduceRowBody bids val row) (List.range (s.N * s.N)) (s, 0, n0) (s1, rem1, n1)
    (fun x a x2 ha hx =>
      reduceRowBody_Rred s.N bids val row hrow x a (List.mem_range.mp ha) x2 hx)
    hok
  obtain ⟨hS1, hN1, hmono, hrem, hT, hn, hpos⟩ := hrel rfl hs
  have hT2 : totalCand s1 + (rem1 - 0) ≤ totalCand s := hT
  have hn2 : n0 ≤ n1 := hn
  have hpos2 : n0 < n1 → 0 < rem1 := hpos
  refine ⟨hS1, hN1, hmono, hn2, by omega, ?_⟩
  intro hlt
  have := hpos2 hlt
  omega

theorem reduceFold_col_prog (bids : List (Nat × Nat)) (val col : Nat)
    (s : SudokuSolver) (hs : s.SInv) (hcol : col < s.N * s.N)
    (n0 : Nat) (s1 : SudokuSolver) (rem1 n1 : Nat)
    (hok : foldME (reduceColBody bids val col) (s, 0, n0) (List.range (s.N * s.N)) =
      .ok (s1, rem1, n1)) :
    s1.SInv ∧ s1.N = s.N ∧
    (∀ r c : Nat, (s.get_tile r c).value ≠ 0 →
      (s1.get_tile r c).value = (s.get_tile r c).value) ∧
    n0 ≤ n1 ∧ totalCand s1 ≤ totalCand s ∧
    (n0 < n1 → totalCand s1 < totalCand s) := by
  have hrel := foldME_rel (RredN s.N) (RredN_trans s.N) (RredN_refl s.N)
    (reduceColBody bids val col) (List.range (s.N * s.N)) (s, 0, n0) (s1, rem1, n1)
    (fun x a x2 ha hx =>
      reduceColBody_Rred s.N bids val col hcol x a (List.mem_range.mp ha) x2 hx)
    hok
  obtain ⟨hS1, hN1, hmono, hrem, hT, hn, hpos⟩ := hrel rfl hs
  have hT2 : totalCand s1 + (rem1 - 0) ≤ totalCand s := hT
  have hn2 : n0 ≤ n1 := hn
  have hpos2 : n0 < n1 → 0 < rem1 := hpos
  refine ⟨hS1, hN1, hmono, hn2, by omega, ?_⟩
  intro hlt
  have := hpos2 hlt
  omega

theorem boxValBody_RprogN (N0 : Nat) (bids : List (Nat × Nat))
    (hbids : ∀ p ∈ bids, p.1 < N0 * N0 ∧ p.2 < N0 * N0)
    (val : Nat) (hval1 : 1 ≤ val) (hval2 : val ≤ N0 * N0)
    (st st2 : SudokuSolver × Nat)
    (hok : boxValBody bids st val = .ok st2) : RprogN N0 st st2 := by
  intro hN hS
  unfold boxValBody at hok
  simp only at hok
  split at hok
  · rename_i r rows1 c cols1 heq1 heq2
    have hrmem : r ∈ (collectOcc st.1 bids val).1 := by rw [heq1]; simp
    have hcmem : c ∈ (collectOcc st.1 bids val).2.1 := by rw [heq2]; simp
    have hrlt : r < st.1.N * st.1.N := by
      rw [collectOcc_eq_foldl] at hrmem
      rcases occStep_foldl_rows_mem st.1 val bids ([], [], 0) r hrmem with h | ⟨p, hp, hpr⟩
      · exact absurd h (by simp)
      · rw [hN, ← hpr]
        exact (hbids p hp).1
    have hclt : c < st.1.N * st.1.N := by
      rw [collectOcc_eq_foldl] at hcmem
      rcases occStep_foldl_cols_mem st.1 val bids ([], [], 0) c hcmem with h | ⟨p, hp, hpc⟩
      · exact absurd h (by simp)
      · rw [hN, ← hpc]
        exact (hbids p hp).2
    by_cases h1 : (collectOcc st.1 bids val).2.2 = 1
    · rw [if_pos h1] at hok
      have hres := st.1.resolve_noop_of_SInv hS r c hrlt hclt
      rw [hres] at hok
      simp only at hok
      rw [st.1.set_tile_get_self r c] at hok
      by_cases hv : (st.1.get_tile r c).value = EMPTY
      · rw [if_pos hv] at hok
        match hcm : st.1.commit r c val with
        | .error e =>
          rw [hcm] at hok
          exact absurd hok (by simp)
        | .ok (s2, m) =>
          rw [hcm] at hok
          have hinj : (Except.ok (s2, st.2 + m) : Except SolveErr (SudokuSolver × Nat)) =
              Except.ok st2 := hok
          injection hinj with h1p
          rw [EMPTY_def] at hv
          have hcs := commit_step st.1 hS r c val hrlt hclt hval1
            (by rw [hN]; exact hval2) (Or.inl hv) s2 m hcm
          obtain ⟨hS2, hN2, hmono2, hT2⟩ := hcs
          rw [← h1p]
          refine ⟨hS2, hN2, hmono2, ?_, ?_, ?_⟩
          · show totalCand s2 ≤ totalCand st.1
            omega
          · show st.2 ≤ st.2 + m
            omega
          · show st.2 < st.2 + m → totalCand s2 < totalCand st.1
            intro hlt
            omega
      · rw [if_neg hv] at hok
        have hinj : (Except.ok (st.1, st.2) : Except SolveErr (SudokuSolver × Nat)) =
            Except.ok st2 := hok
        injection hinj with h1p
        rw [← h1p]
        exact Rprog_refl st hS
    · rw [if_neg h1] at hok
      by_cases h2 : (r :: rows1).length = 1
      · rw [if_pos h2] at hok
        match hf : foldME (reduceRowBody bids val r) (st.1, 0, st.2)
            (List.range (st.1.N * st.1.N)) with
        | .error e =>
          rw [hf] at hok
          exact absurd hok (by simp)
        | .ok (s1, rem1, n1) =>
          rw [hf] at hok
          simp only at hok
          have hinj : (Except.ok (s1, n1) : Except SolveErr (SudokuSolver × Nat)) =
              Except.ok st2 := hok
          injection hinj with h1p
          have hfold := reduceFold_row_prog bids val r st.1 hS hrlt st.2 s1 rem1 n1 hf
          obtain ⟨hS1, hN1, hmono1, hn1, hT1, hstrict1⟩ := hfold
          rw [← h1p]
          exact ⟨hS1, hN1, hmono1, hT1, hn1, hstrict1⟩
      · rw [if_neg h2] at hok
        by_cases h3 : (c :: cols1).length = 1
        · rw [if_pos h3] at hok
          match hf : foldME (reduceColBody bids val c) (st.1, 0, st.2)
              (List.range (st.1.N * st.1.N)) with
          | .error e =>
            rw [hf] at hok
            exact absurd hok (by simp)
          | .ok (s1, rem1, n1) =>
            rw [hf] at hok
            simp only at hok
            have hinj : (Except.ok (s1, n1) : Except SolveErr (SudokuSolver × Nat)) =
                Except.ok st2 := hok
            injection hinj with h1p
            have hfold := reduceFold_col_prog bids val c st.1 hS hclt st.2 s1 rem1 n1 hf
            obtain ⟨hS1, hN1, hmono1, hn1, hT1, hstrict1⟩ := hfold
            rw [← h1p]
            exact ⟨hS1, hN1, hmono1, hT1, hn1, hstrict1⟩
        · rw [if_neg h3] at hok
          have hinj : (Except.ok (st.1, st.2) : Except SolveErr (SudokuSolver × Nat)) =
              Except.ok st2 := hok
          injection hinj with h1p
          rw [← h1p]
          exact Rprog_refl st hS
  · exact absurd hok (by simp)

theorem boxBody_RprogN (N0 : Nat) (st st2 : SudokuSolver × Nat) (b : Nat × Nat)
    (hb : b ∈ boxList N0) (hok : boxBody st b = .ok st2) : RprogN N0 st st2 := by
  intro hN hS
  unfold boxBody at hok
  simp only at hok
  have hblt := (mem_boxList N0 b).mp hb
  have hN1 : 1 ≤ st.1.N := by rw [hN]; omega
  have hb1 : b.1 * st.1.N < st.1.N * st.1.N := by
    rw [hN]
    have hb1' : b.1 + 1 ≤ N0 := hblt.1
    calc b.1 * N0 < (b.1 + 1) * N0 := by
          have h0 : 0 < N0 := by omega
          nlinarith
    _ ≤ N0 * N0 := Nat.mul_le_mul_right _ hblt.1
  have hb2 : b.2 * st.1.N < st.1.N * st.1.N := by
    rw [hN]
    calc b.2 * N0 < (b.2 + 1) * N0 := by
          have h0 : 0 < N0 := by omega
          nlinarith
    _ ≤ N0 * N0 := Nat.mul_le_mul_right _ hblt.2
  have hbnd0 : ∀ p ∈ st.1.box_indices (b.1 * st.1.N) (b.2 * st.1.N),
      p.1 < N0 * N0 ∧ p.2 < N0 * N0 := by
    intro p hp
    rw [← hN]
    exact st.1.box_indices_bounds (b.1 * st.1.N) (b.2 * st.1.N) hb1 hb2 p hp
  have hrel := foldME_rel (RprogN N0) (RprogN_trans N0) (RprogN_refl N0)
    (boxValBody (st.1.box_indices (b.1 * st.1.N) (b.2 * st.1.N)))
    (List.range' 1 (st.1.N * st.1.N)) st st2
    (fun x a x2 ha hx => by
      have hmem := List.mem_range'_1.mp ha
      rw [hN] at hmem
      exact boxValBody_RprogN N0 _ hbnd0 a hmem.1 (by omega) x x2 hx)
    hok
  exact hrel hN hS

theorem lonesomeRows_RprogN (N0 : Nat) (val a : Nat) (rows : List Nat)
    (hrows : ∀ x ∈ rows, x < N0 * N0)
    (ha : a < N0 * N0) (hv1 : 1 ≤ val) (hv2 : val ≤ N0 * N0)
    (st1 st2 : SudokuSolver × Nat)
    (hok : (if rows.length = 1 then
        (if (((st1.1.get_tile (rows.headD 0) a).resolve).2 = EMPTY) then
          (match (st1.1.set_tile (rows.headD 0) a
              ((st1.1.get_tile (rows.headD 0) a).resolve).1).commit
              (rows.headD 0) a val with
            | Except.error e => Except.error e
            | Except.ok (s3, m) => Except.ok (s3, st1.2 + m))
        else Except.ok (st1.1.set_tile (rows.headD 0) a
          ((st1.1.get_tile (rows.headD 0) a).resolve).1, st1.2))
      else Except.ok st1) = Except.ok st2) :
    RprogN N0 st1 st2 := by
  intro hN hS
  by_cases h2 : rows.length = 1
  · rw [if_pos h2] at hok
    have hrow0 : rows.headD 0 < N0 * N0 := by
      apply hrows
      match hl : rows with
      | [x] => simp
      | [] => simp at h2
      | x :: y :: r => simp at h2
    have hrlt : rows.headD 0 < st1.1.N * st1.1.N := by rw [hN]; exact hrow0
    have halt : a < st1.1.N * st1.1.N := by rw [hN]; exact ha
    have hres := st1.1.resolve_noop_of_SInv hS (rows.headD 0) a hrlt halt
    rw [hres] at hok
    simp only at hok
    rw [st1.1.set_tile_get_self] at hok
    by_cases hv : (st1.1.get_tile (rows.headD 0) a).value = EMPTY
    · rw [if_pos hv] at hok
      match hcm : st1.1.commit (rows.headD 0) a val with
      | .error e =>
        rw [hcm] at hok
        exact absurd hok (by simp)
      | .ok (s3, m) =>
        rw [hcm] at hok
        have hinj : (Except.ok (s3, st1.2 + m) : Except SolveErr (SudokuSolver × Nat)) =
            Except.ok st2 := hok
        injection hinj with h1p
        rw [EMPTY_def] at hv
        have hcs := commit_step st1.1 hS (rows.headD 0) a val hrlt halt hv1
          (by rw [hN]; exact hv2) (Or.inl hv) s3 m hcm
        obtain ⟨hS3, hN3, hmono3, hT3⟩ := hcs
        rw [← h1p]
        refine ⟨hS3, hN3, hmono3, ?_, ?_, ?_⟩
        · show totalCand s3 ≤ totalCand st1.1
          omega
        · show st1.2 ≤ st1.2 + m
          omega
        · show st1.2 < st1.2 + m → totalCand s3 < totalCand st1.1
          intro hlt
          omega
    · rw [if_neg hv] at hok
      have hinj : (Except.ok (st1.1, st1.2) : Except SolveErr (SudokuSolver × Nat)) =
          Except.ok st2 := hok
      injection hinj with h1p
      rw [← h1p]
      exact Rprog_refl st1 hS
  · rw [if_neg h2] at hok
    injection hok with h1p
    rw [← h1p]
    exact Rprog_refl st1 hS

theorem lonesomeBody_RprogN (N0 : Nat) (val a : Nat) (ha : a < N0 * N0)
    (hv1 : 1 ≤ val) (hv2 : val ≤ N0 * N0) (st st2 : SudokuSolver × Nat) (d : Nat)
    (hok : lonesomeBody val a st d = .ok st2) : RprogN N0 st st2 := by
  intro hN hS
  have hrowmem : ∀ x ∈ (lonesome st.1 a val).1, x < N0 * N0 := by
    intro x hx
    rw [lonesome_eq_foldl] at hx
    rcases (lonesomeStep_foldl_mem st.1 a val (List.range (st.1.N * st.1.N)) ([], []) x).1
      hx with h | h
    · exact absurd h (by simp)
    · rw [← hN]
      exact List.mem_range.mp h
  have hcolmem : ∀ x ∈ (lonesome st.1 a val).2, x < N0 * N0 := by
    intro x hx
    rw [lonesome_eq_foldl] at hx
    rcases (lonesomeStep_foldl_mem st.1 a val (List.range (st.1.N * st.1.N)) ([], []) x).2
      hx with h | h
    · exact absurd h (by simp)
    · rw [← hN]
      exact List.mem_range.mp h
  unfold lonesomeBody at hok
  simp only at hok
  by_cases h1 : (lonesome st.1 a val).2.length = 1
  · rw [if_pos h1] at hok
    have hcol0 : (lonesome st.1 a val).2.headD 0 < N0 * N0 := by
      apply hcolmem
      match hl : (lonesome st.1 a val).2 with
      | [x] => simp
      | [] => rw [hl] at h1; simp at h1
      | x :: y :: r => rw [hl] at h1; simp at h1
    have hclt : (lonesome st.1 a val).2.headD 0 < st.1.N * st.1.N := by
      rw [hN]
      exact hcol0
    have halt : a < st.1.N * st.1.N := by rw [hN]; exact ha
    have hres := st.1.resolve_noop_of_SInv hS a _ halt hclt
    rw [hres] at hok
    simp only at hok
    rw [st.1.set_tile_get_self] at hok
    by_cases hv : (st.1.get_tile a ((lonesome st.1 a val).2.headD 0)).value = EMPTY
    · rw [if_pos hv] at hok
      match hcm : st.1.commit a ((lonesome st.1 a val).2.headD 0) val with
      | .error e =>
        rw [hcm] at hok
        exact absurd hok (by simp)
      | .ok (s2, m) =>
        rw [hcm] at hok
        simp only at hok
        rw [EMPTY_def] at hv
        have hcs := commit_step st.1 hS a _ val halt hclt hv1 (by rw [hN]; exact hv2)
          (Or.inl hv) s2 m hcm
        obtain ⟨hS2, hN2, hmono2, hT2⟩ := hcs
        have hR1 : RprogN N0 st (s2, st.2 + m) := by
          intro _ _
          refine ⟨hS2, hN2, hmono2, ?_, ?_, ?_⟩
          · show totalCand s2 ≤ totalCand st.1
            omega
          · show st.2 ≤ st.2 + m
            omega
          · show st.2 < st.2 + m → totalCand s2 < totalCand st.1
            intro hlt
            omega
        have hR2 := lonesomeRows_RprogN N0 val a (lonesome st.1 a val).1 hrowmem ha hv1 hv2
          (s2, st.2 + m) st2 hok
        exact RprogN_trans N0 st (s2, st.2 + m) st2 hR1 hR2 hN hS
    · rw [if_neg hv] at hok
      simp only at hok
      exact lonesomeRows_RprogN N0 val a (lonesome st.1 a val).1 hrowmem ha hv1 hv2
        (st.1, st.2) st2 hok hN hS
  · rw [if_neg h1] at hok
    simp only at hok
    exact lonesomeRows_RprogN N0 val a (lonesome st.1 a val).1 hrowmem ha hv1 hv2
      st st2 hok hN hS

theorem lonesomeLine_RprogN (N0 : Nat) (val : Nat) (hv1 : 1 ≤ val) (hv2 : val ≤ N0 * N0)
    (M : Nat) (st st2 : SudokuSolver × Nat) (a : Nat) (ha : a < N0 * N0)
    (hok : foldME (lonesomeBody val a) st (List.range' 1 M) = .ok st2) :
    RprogN N0 st st2 :=
  foldME_rel (RprogN N0) (RprogN_trans N0) (RprogN_refl N0) (lonesomeBody val a)
    (List.range' 1 M) st st2
    (fun x d x2 _ hx => lonesomeBody_RprogN N0 val a ha hv1 hv2 x x2 d hx)
    hok

theorem refresh_prog (s : SudokuSolver) (hs : s.SInv) (s2 : SudokuSolver) (n : Nat)
    (hok : s.refresh_possible = .ok (s2, n)) :
    s2.SInv ∧ s2.N = s.N ∧
    (∀ r c : Nat, (s.get_tile r c).value ≠ 0 →
      (s2.get_tile r c).value = (s.get_tile r c).value) ∧
    totalCand s2 ≤ totalCand s ∧ (0 < n → totalCand s2 < totalCand s) := by
  have hv1 : 1 ≤ s.N * s.N := by
    have h4 : 2 * 2 ≤ s.N * s.N := Nat.mul_le_mul hs.1 hs.1
    omega
  unfold SudokuSolver.refresh_possible at hok
  match h1 : foldME pass1Body (s, 0) (allIndices s.N) with
  | .error e =>
    rw [h1] at hok
    exact absurd hok (by simp)
  | .ok st1 =>
    rw [h1] at hok
    simp only at hok
    match h2 : foldME boxBody st1 (boxList s.N) with
    | .error e =>
      rw [h2] at hok
      exact absurd hok (by simp)
    | .ok st2' =>
      rw [h2] at hok
      simp only at hok
      have hp1 : RprogN s.N (s, 0) st1 :=
        foldME_rel (RprogN s.N) (RprogN_trans s.N) (RprogN_refl s.N) pass1Body
          (allIndices s.N) (s, 0) st1
          (fun x p x2 hp hx => pass1Body_Rprog s.N x p x2 hp hx) h1
      have hp2 : RprogN s.N st1 st2' :=
        foldME_rel (RprogN s.N) (RprogN_trans s.N) (RprogN_refl s.N) boxBody
          (boxList s.N) st1 st2'
          (fun x b x2 hb hx => boxBody_RprogN s.N x x2 b hb hx) h2
      have hp3 : RprogN s.N st2' (s2, n) :=
        foldME_rel (RprogN s.N) (RprogN_trans s.N) (RprogN_refl s.N)
          (fun st a => foldME (lonesomeBody (s.N * s.N) a) st (List.range' 1 (s.N * s.N)))
          (List.range (s.N * s.N)) st2' (s2, n)
          (fun x a x2 ha hx => lonesomeLine_RprogN s.N (s.N * s.N) hv1 (le_refl _)
            (s.N * s.N) x x2 a (List.mem_range.mp ha) hx)
          hok
      have hall := RprogN_trans s.N (s, 0) st1 (s2, n) hp1
        (RprogN_trans s.N st1 st2' (s2, n) hp2 hp3) rfl hs
      obtain ⟨hS2, hN2, hmono, hT, hle, hstrict⟩ := hall
      have hN2' : s2.N = s.N := hN2
      have hT' : totalCand s2 ≤ totalCand s := hT
      have hstrict' : 0 < n → totalCand s2 < totalCand s := fun h => hstrict h
      exact ⟨hS2, hN2', hmono, hT', hstrict'⟩

theorem solve_count_foldl (s : SudokuSolver) (hs : s.SInv) :
    ∀ (L : List (Nat × Nat)) (n : Nat),
    (∀ p ∈ L, p.1 < s.N * s.N ∧ p.2 < s.N * s.N) →
    L.foldl solveCountStep (s, n) =
      (s, n + L.countP fun p => decide ((s.get_tile p.1 p.2).value ≠ 0))
  | [], n, _ => by simp
  | p :: ps, n, hb => by
    rw [List.foldl_cons]
    have hpb := hb p (by simp)
    have hres := s.resolve_noop_of_SInv hs p.1 p.2 hpb.1 hpb.2
    have hstep : solveCountStep (s, n) p =
        (s, n + if (s.get_tile p.1 p.2).value ≠ 0 then 1 else 0) := by
      unfold solveCountStep
      simp only
      rw [hres]
      simp only
      rw [s.set_tile_get_self]
      by_cases hv : (s.get_tile p.1 p.2).value ≠ 0
      · rw [if_pos hv, if_pos hv]
      · rw [if_neg hv, if_neg hv]
        rw [Nat.add_zero]
    rw [hstep]
    rw [solve_count_foldl s hs ps (n + if (s.get_tile p.1 p.2).value ≠ 0 then 1 else 0)
      (fun q hq => hb q (by simp [hq]))]
    rw [List.countP_cons]
    congr 1
    by_cases hv : (s.get_tile p.1 p.2).value ≠ 0
    · rw [if_pos hv]
      have hd : decide ((s.get_tile p.1 p.2).value ≠ 0) = true := by simp [hv]
      rw [hd]
      simp
      omega
    · rw [if_neg hv]
      have hd : decide ((s.get_tile p.1 p.2).value ≠ 0) = false := by
        simp at hv ⊢
        exact hv
      rw [hd]
      simp

theorem solve_count_eq (s : SudokuSolver) (hs : s.SInv) :
    s.solve_count = (s, solvedCountPure s) := by
  rw [solve_count_eq_foldl]
  rw [solve_count_foldl s hs (allIndices s.N) 0
    (fun p hp => (mem_allIndices s.N p).mp hp)]
  show (s, 0 + _) = (s, solvedCountPure s)
  rw [Nat.zero_add]
  rfl

theorem countP_le_of_imp {α : Type} (p q : α → Bool) :
    ∀ l : List α, (∀ x ∈ l, p x = true → q x = true) → l.countP p ≤ l.countP q
  | [], _ => le_refl _
  | a :: l, h => by
    rw [List.countP_cons, List.countP_cons]
    have ih := countP_le_of_imp p q l (fun x hx => h x (by simp [hx]))
    by_cases hp : p a = true
    · have hq := h a (by simp) hp
      rw [hp, hq]
      simp
      omega
    · have hp2 : p a = false := by
        rcases Bool.eq_false_or_eq_true (p a) with h1 | h1
        · exact absurd h1 hp
        · exact h1
      rw [hp2]
      simp
      omega

theorem solvedCountPure_mono (s s2 : SudokuSolver) (hN : s2.N = s.N)
    (hmono : ∀ r c : Nat, (s.get_tile r c).value ≠ 0 →
      (s2.get_tile r c).value = (s.get_tile r c).value) :
    solvedCountPure s ≤ solvedCountPure s2 := by
  unfold solvedCountPure
  rw [hN]
  apply countP_le_of_imp
  intro x _ hx
  simp only [decide_eq_true_eq] at hx ⊢
  rw [hmono x.1 x.2 hx]
  exact hx

theorem solvedCountPure_le (s : SudokuSolver) :
    solvedCountPure s ≤ (allIndices s.N).length :=
  List.countP_le_length _

theorem solve_step_prog (s : SudokuSolver) (hs : s.SInv) (s1 : SudokuSolver)
    (removed1 solved1 : Nat) (hok : s.solve_step = .ok (s1, removed1, solved1)) :
    s1.SInv ∧ s1.N = s.N ∧ solved1 = solvedCountPure s1 ∧
    solvedCountPure s ≤ solvedCountPure s1 ∧
    totalCand s1 ≤ totalCand s ∧ (0 < removed1 → totalCand s1 < totalCand s) := by
  unfold SudokuSolver.solve_step at hok
  match hr : s.refresh_possible with
  | .error e =>
    rw [hr] at hok
    exact absurd hok (by simp)
  | .ok (sr, nr) =>
    rw [hr] at hok
    simp only at hok
    have hp := refresh_prog s hs sr nr hr
    obtain ⟨hSr, hNr, hmono, hT, hstrict⟩ := hp
    rw [solve_count_eq sr hSr] at hok
    simp only at hok
    have hinj : ((sr, nr, solvedCountPure sr) : SudokuSolver × Nat × Nat) =
        (s1, removed1, solved1) := by
      injection hok with h
    have hs1 : sr = s1 := congrArg Prod.fst hinj
    have hrest := congrArg Prod.snd hinj
    have hnr : nr = removed1 := congrArg Prod.fst hrest
    have hsc : solvedCountPure sr = solved1 := congrArg Prod.snd hrest
    subst hs1 hnr
    refine ⟨hSr, hNr, hsc.symm, ?_, hT, hstrict⟩
    exact solvedCountPure_mono s sr hNr hmono

theorem solveLoop_isSome :
    ∀ (fuel : Nat) (s : SudokuSolver) (prev solved removed : Nat),
    s.SInv → solved = solvedCountPure s →
    2 * totalCand s + 2 * ((allIndices s.N).length - solvedCountPure s) +
      (if prev ≠ solved then 1 else 0) + (if 0 < removed then 1 else 0) < fuel →
    (solveLoop fuel s prev solved removed).isSome = true
  | 0, s, prev, solved, removed, _, _, hlt => absurd hlt (Nat.not_lt_zero _)
  | fuel + 1, s, prev, solved, removed, hs, hsolved, hlt => by
    have hunf : solveLoop (fuel + 1) s prev solved removed =
        if prev ≠ solved ∨ 0 < removed then
          match s.solve_step with
          | .error e => some (.error e)
          | .ok (s1, removed1, solved1) => solveLoop fuel s1 solved solved1 removed1
        else some (.ok s) := rfl
    rw [hunf]
    by_cases hcond : prev ≠ solved ∨ 0 < removed
    · rw [if_pos hcond]
      have hub : 2 * totalCand s + 2 * ((allIndices s.N).length - solvedCountPure s) + 1
          ≤ fuel := by
        by_cases h0 : prev ≠ solved
        · rw [if_pos h0] at hlt
          by_cases h1 : 0 < removed
          · rw [if_pos h1] at hlt
            omega
          · rw [if_neg h1] at hlt
            omega
        · rw [if_neg h0] at hlt
          rcases hcond with h | h
          · exact absurd h h0
          · rw [if_pos h] at hlt
            omega
      match hstep : s.solve_step with
      | .error e => rfl
      | .ok (s1, removed1, solved1) =>
        show (solveLoop fuel s1 solved solved1 removed1).isSome = true
        have hp := solve_step_prog s hs s1 removed1 solved1 hstep
        obtain ⟨hS1, hN1, hsc1, hscmono, hT, hstrict⟩ := hp
        apply solveLoop_isSome fuel s1 solved solved1 removed1 hS1 hsc1
        have hBeq : (allIndices s1.N).length = (allIndices s.N).length := by rw [hN1]
        have hb0 : solvedCountPure s ≤ (allIndices s.N).length := solvedCountPure_le s
        have hb1 : solvedCountPure s1 ≤ (allIndices s.N).length := by
          rw [← hBeq]
          exact solvedCountPure_le s1
        rw [hBeq]
        have hkey : solved ≠ solved1 → solvedCountPure s < solvedCountPure s1 := by
          intro hne
          rw [hsolved, hsc1] at hne
          omega
        by_cases h2 : 0 < removed1
        · have hT1 := hstrict h2
          rw [if_pos h2]
          by_cases h1 : solved ≠ solved1
          · rw [if_pos h1]
            omega
          · rw [if_neg h1]
            omega
        · rw [if_neg h2]
          by_cases h1 : solved ≠ solved1
          · rw [if_pos h1]
            have hsc := hkey h1
            omega
          · rw [if_neg h1]
            omega
    · rw [if_neg hcond]
      rfl

/-- C7: termination of the fixed-point loop of solve: under the solver
invariant the loop reaches its exit condition (or propagates a solver
error) within 2*totalCand + 2*N^4 + 2 passes, because the resolved count
never decreases and is bounded by N^4, the candidate total is finite and
never increases, every pass that eliminates a candidate strictly shrinks
the candidate total, and a pass that changes the resolved count strictly
grows it; so the fuelled loop never runs out of fuel and solve returns a
result rather than diverging. -/
theorem claim_C7_solve_terminates (s : SudokuSolver) (hs : s.SInv) :
    (s.solve (2 * totalCand s + 2 * (allIndices s.N).length + 2)).isSome = true := by
  unfold SudokuSolver.solve
  rw [solve_count_eq s hs]
  simp only
  have hb := solvedCountPure_le s
  have hloop := solveLoop_isSome (2 * totalCand s + 2 * (allIndices s.N).length + 2)
    s 0 (solvedCountPure s) 0 hs rfl (by
      rw [if_neg (by omega : ¬ (0 < 0))]
      by_cases h0 : 0 ≠ solvedCountPure s
      · rw [if_pos h0]
        omega
      · rw [if_neg h0]
        omega)
  match hl : solveLoop (2 * totalCand s + 2 * (allIndices s.N).length + 2)
      s 0 (solvedCountPure s) 0 with
  | none =>
    rw [hl] at hloop
    exact absurd hloop (by simp)
  | some (.error e) => rfl
  | some (.ok s1) => rfl

/-- Witness for C7: the all-blank 4x4 grid satisfies the invariant and
its solve call returns a result within the stated pass bound. -/
theorem claim_C7_solve_terminates_witness :
    (blankGrid 2).SInv ∧
    ((blankGrid 2).solve (2 * totalCand (blankGrid 2) +
      2 * (allIndices (blankGrid 2).N).length + 2)).isSome = true :=
  ⟨by decide, claim_C7_solve_terminates (blankGrid 2) (by decide)⟩
